import Mathlib

/-!
Verification development for the simanager repository
(parameter-sweep simulation studies).

The definitions below are shallow embeddings, translated from the Python
source files:

  * simanager/simulation_study.py   (SimulationStudy: build/yield parameter
    combinations, set_sim_status, _update_remote_status, reset_simulations)
  * simanager/parameter_inspection.py (ParameterInspection.__post_init__)
  * simanager/tools.py              (number_filename_formatter,
    update_nested_dict)

File-system side effects are modelled explicitly: the persisted
`simulation_info.yaml` document becomes the `SimulationInfo` structure,
reading/rewriting it becomes state passing, a raised Python exception
becomes an `Except.error`, and `os.path.exists` over the remote-touch
directory becomes a boolean predicate on file names.  A successful
`Except.ok` result of `set_sim_status` carries, next to the new state,
the status string that the function writes into the case's own config
document (`parameters["simulation_status"] = status`), so that the
"re-persists even on a membership no-op" part of the spec is visible in
the model.
-/

/-- The five status lists of `simulation_info.yaml` as written by
`SimulationStudy.initialize_folders` and mutated by
`SimulationStudy.set_sim_status`. -/
structure SimulationInfo where
  sim_not_started : List String
  sim_running : List String
  sim_finished : List String
  sim_interrupted : List String
  sim_error : List String
deriving DecidableEq, Repr

/-- The concatenation of the five status lists, in the order used by the
membership check at the top of `set_sim_status`
(`sim_not_started + sim_running + sim_finished + sim_interrupted + sim_error`). -/
def allSims (info : SimulationInfo) : List String :=
  info.sim_not_started ++ info.sim_running ++ info.sim_finished ++
    info.sim_interrupted ++ info.sim_error

/-- The five admissible status strings (docstring of `set_sim_status`). -/
def validStatuses : List String :=
  ["not_started", "running", "finished", "interrupted", "error"]

/-- The status list a given status string names (`simulation_info[f"sim_{status}"]`). -/
def statusList (info : SimulationInfo) (status : String) : List String :=
  if status = "not_started" then info.sim_not_started
  else if status = "running" then info.sim_running
  else if status = "finished" then info.sim_finished
  else if status = "interrupted" then info.sim_interrupted
  else if status = "error" then info.sim_error
  else []

/-- The `if/elif` chain of `set_sim_status` that removes `sim_name` from the
first status list containing it (`list.remove` removes the first occurrence,
matching `List.erase`) and records the previous location.  The final `else`
branch mirrors the second `raise ValueError` of the source, which is
unreachable once the membership pre-check has passed. -/
def removePrev (info : SimulationInfo) (simName : String) :
    Except String (SimulationInfo × String) :=
  if simName ∈ info.sim_not_started then
    .ok ({ info with sim_not_started := info.sim_not_started.erase simName }, "not_started")
  else if simName ∈ info.sim_running then
    .ok ({ info with sim_running := info.sim_running.erase simName }, "running")
  else if simName ∈ info.sim_finished then
    .ok ({ info with sim_finished := info.sim_finished.erase simName }, "finished")
  else if simName ∈ info.sim_interrupted then
    .ok ({ info with sim_interrupted := info.sim_interrupted.erase simName }, "interrupted")
  else if simName ∈ info.sim_error then
    .ok ({ info with sim_error := info.sim_error.erase simName }, "error")
  else
    .error ("Simulation " ++ simName ++ " not found in simulation info file.")

/-- `simulation_info[f"sim_{status}"].append(sim_name)`: appending to the
target list; an unknown status string raises a `KeyError` on the dictionary
lookup, modelled by the final `.error`. -/
def appendStatus (info : SimulationInfo) (status simName : String) :
    Except String SimulationInfo :=
  if status = "not_started" then
    .ok { info with sim_not_started := info.sim_not_started ++ [simName] }
  else if status = "running" then
    .ok { info with sim_running := info.sim_running ++ [simName] }
  else if status = "finished" then
    .ok { info with sim_finished := info.sim_finished ++ [simName] }
  else if status = "interrupted" then
    .ok { info with sim_interrupted := info.sim_interrupted ++ [simName] }
  else if status = "error" then
    .ok { info with sim_error := info.sim_error ++ [simName] }
  else
    .error ("KeyError: sim_" ++ status)

/-- `SimulationStudy.set_sim_status` (simulation_study.py lines 382-454).
The source first checks membership of `sim_name` in the concatenation of the
five lists and raises `ValueError` otherwise (before any write happens), then
removes the simulation from its current list, appends it to
`sim_{status}`, rewrites the case's config document with
`simulation_status = status`, and rewrites `simulation_info.yaml`.  The
returned pair is (new persisted state, status written to the config
document); an `.error` result corresponds to an exception raised before any
file write. -/
def set_sim_status (info : SimulationInfo) (simName status : String) :
    Except String (SimulationInfo × String) :=
  if simName ∈ allSims info then
    match removePrev info simName with
    | .error e => .error e
    | .ok (info₁, _prevLoc) =>
      match appendStatus info₁ status simName with
      | .error e => .error e
      | .ok info₂ => .ok (info₂, status)
  else
    .error ("Simulation " ++ simName ++ " not found in simulation info file.")

/-- Sequential application of a state-updating step to a list of items, with
Python-style exception propagation (the loop stops at the first raised
exception).  This is the shape of every loop in `simulation_study.py` that
calls `set_sim_status` repeatedly, each call re-reading the state the
previous call persisted. -/
def foldExcept {β : Type} (f : SimulationInfo → β → Except String SimulationInfo) :
    SimulationInfo → List β → Except String SimulationInfo
  | info, [] => .ok info
  | info, b :: rest =>
    match f info b with
    | .error e => .error e
    | .ok info₁ => foldExcept f info₁ rest

/-- A sequence of `set_sim_status info case status` calls. -/
def apply_transitions (info : SimulationInfo) (calls : List (String × String)) :
    Except String SimulationInfo :=
  foldExcept (fun cur c =>
    match set_sim_status cur c.1 c.2 with
    | .error e => .error e
    | .ok (next, _written) => .ok next) info calls

/-- One loop iteration of `SimulationStudy._update_remote_status`
(simulation_study.py lines 469-482): `FINISHED_<sim>` is checked first, then
`ERROR_<sim>`, then `IO_ERROR_<sim>`; if none of the sentinel files exists the
status is left untouched. `fileExists` models `os.path.exists` inside the
`remote_touch_files` directory. -/
def remoteStep (fileExists : String → Bool) (cur : SimulationInfo) (sim : String) :
    Except String SimulationInfo :=
  if fileExists ("FINISHED_" ++ sim) then
    match set_sim_status cur sim "finished" with
    | .error e => .error e
    | .ok (next, _) => .ok next
  else if fileExists ("ERROR_" ++ sim) then
    match set_sim_status cur sim "error" with
    | .error e => .error e
    | .ok (next, _) => .ok next
  else if fileExists ("IO_ERROR_" ++ sim) then
    match set_sim_status cur sim "error" with
    | .error e => .error e
    | .ok (next, _) => .ok next
  else .ok cur

/-- `SimulationStudy._update_remote_status` (simulation_study.py lines
456-482): the list of simulations to check is `sim_not_started + sim_running`
as read from the initial state; each `set_sim_status` call then operates on
the state persisted by the previous one. -/
def update_remote_status (info : SimulationInfo) (fileExists : String → Bool) :
    Except String SimulationInfo :=
  foldExcept (remoteStep fileExists) info
    (info.sim_not_started ++ info.sim_running)

/-- The scope selection of `SimulationStudy.reset_simulations`
(simulation_study.py lines 592-606).  With `reset_all=True` the source
selects `sim_not_started + sim_running + sim_finished + sim_error` — the
`sim_interrupted` list is not included; with `reset_all=False` it selects
`sim_not_started + sim_running + sim_error + sim_interrupted`. -/
def sim_to_reset (info : SimulationInfo) (resetAll : Bool) : List String :=
  if resetAll then
    info.sim_not_started ++ info.sim_running ++ info.sim_finished ++ info.sim_error
  else
    info.sim_not_started ++ info.sim_running ++ info.sim_error ++ info.sim_interrupted

/-- The status-tracking effect of `SimulationStudy.reset_simulations`
(simulation_study.py lines 608-634): every selected simulation is moved to
`not_started` via `set_sim_status` (both the `restore_original` branch and
the plain branch end in `set_sim_status(sim, "not_started")`; folder cloning
and sentinel-file removal have no effect on the status lists and are not
modelled). -/
def reset_simulations (info : SimulationInfo) (resetAll : Bool) :
    Except String SimulationInfo :=
  foldExcept (fun cur sim =>
    match set_sim_status cur sim "not_started" with
    | .error e => .error e
    | .ok (next, _) => .ok next) info (sim_to_reset info resetAll)

/-- Equality of the five membership facts for one name between two states. -/
def memIff (x : String) (a b : SimulationInfo) : Prop :=
  (x ∈ a.sim_not_started ↔ x ∈ b.sim_not_started) ∧
  (x ∈ a.sim_running ↔ x ∈ b.sim_running) ∧
  (x ∈ a.sim_finished ↔ x ∈ b.sim_finished) ∧
  (x ∈ a.sim_interrupted ↔ x ∈ b.sim_interrupted) ∧
  (x ∈ a.sim_error ↔ x ∈ b.sim_error)

lemma memIff_refl (x : String) (a : SimulationInfo) : memIff x a a :=
  ⟨Iff.rfl, Iff.rfl, Iff.rfl, Iff.rfl, Iff.rfl⟩

lemma memIff_trans {x : String} {a b c : SimulationInfo}
    (h₁ : memIff x a b) (h₂ : memIff x b c) : memIff x a c := by
  obtain ⟨p1, p2, p3, p4, p5⟩ := h₁
  obtain ⟨q1, q2, q3, q4, q5⟩ := h₂
  exact ⟨p1.trans q1, p2.trans q2, p3.trans q3, p4.trans q4, p5.trans q5⟩

lemma mem_allSims_iff (x : String) (info : SimulationInfo) :
    x ∈ allSims info ↔
      x ∈ info.sim_not_started ∨ x ∈ info.sim_running ∨ x ∈ info.sim_finished ∨
        x ∈ info.sim_interrupted ∨ x ∈ info.sim_error := by
  simp [allSims, List.mem_append, or_assoc]

lemma memIff_allSims {x : String} {a b : SimulationInfo} (h : memIff x a b) :
    x ∈ allSims a ↔ x ∈ allSims b := by
  obtain ⟨p1, p2, p3, p4, p5⟩ := h
  rw [mem_allSims_iff, mem_allSims_iff]
  rw [p1, p2, p3, p4, p5]

lemma coe_erase_add_singleton {s : String} {l : List String} (hl : s ∈ l) :
    (↑(l.erase s) : Multiset String) + {s} = (↑l : Multiset String) := by
  rw [add_comm, Multiset.singleton_add, Multiset.cons_coe, Multiset.coe_eq_coe]
  exact (List.perm_cons_erase hl).symm

lemma removePrev_ok (info : SimulationInfo) (s : String) (hs : s ∈ allSims info) :
    ∃ info₁ p, removePrev info s = .ok (info₁, p) ∧
      ((allSims info₁ : Multiset String) + {s} = (allSims info : Multiset String)) ∧
      (∀ x, x ≠ s → memIff x info₁ info) := by
  by_cases h1 : s ∈ info.sim_not_started
  · refine ⟨{ info with sim_not_started := info.sim_not_started.erase s }, "not_started",
      by simp [removePrev, h1], ?_, ?_⟩
    · simp only [allSims, ← Multiset.coe_add]
      rw [← coe_erase_add_singleton h1]; abel
    · intro x hx
      exact ⟨List.mem_erase_of_ne hx, Iff.rfl, Iff.rfl, Iff.rfl, Iff.rfl⟩
  by_cases h2 : s ∈ info.sim_running
  · refine ⟨{ info with sim_running := info.sim_running.erase s }, "running",
      by simp [removePrev, h1, h2], ?_, ?_⟩
    · simp only [allSims, ← Multiset.coe_add]
      rw [← coe_erase_add_singleton h2]; abel
    · intro x hx
      exact ⟨Iff.rfl, List.mem_erase_of_ne hx, Iff.rfl, Iff.rfl, Iff.rfl⟩
  by_cases h3 : s ∈ info.sim_finished
  · refine ⟨{ info with sim_finished := info.sim_finished.erase s }, "finished",
      by simp [removePrev, h1, h2, h3], ?_, ?_⟩
    · simp only [allSims, ← Multiset.coe_add]
      rw [← coe_erase_add_singleton h3]; abel
    · intro x hx
      exact ⟨Iff.rfl, Iff.rfl, List.mem_erase_of_ne hx, Iff.rfl, Iff.rfl⟩
  by_cases h4 : s ∈ info.sim_interrupted
  · refine ⟨{ info with sim_interrupted := info.sim_interrupted.erase s }, "interrupted",
      by simp [removePrev, h1, h2, h3, h4], ?_, ?_⟩
    · simp only [allSims, ← Multiset.coe_add]
      rw [← coe_erase_add_singleton h4]; abel
    · intro x hx
      exact ⟨Iff.rfl, Iff.rfl, Iff.rfl, List.mem_erase_of_ne hx, Iff.rfl⟩
  have h5 : s ∈ info.sim_error := by
    rcases (mem_allSims_iff s info).mp hs with h | h | h | h | h <;>
      first | exact absurd h h1 | exact absurd h h2 | exact absurd h h3 |
        exact absurd h h4 | exact h
  refine ⟨{ info with sim_error := info.sim_error.erase s }, "error",
    by simp [removePrev, h1, h2, h3, h4, h5], ?_, ?_⟩
  · simp only [allSims, ← Multiset.coe_add]
    rw [← coe_erase_add_singleton h5]; abel
  · intro x hx
    exact ⟨Iff.rfl, Iff.rfl, Iff.rfl, Iff.rfl, List.mem_erase_of_ne hx⟩

lemma mem_append_singleton_iff {x s : String} {l : List String} (hx : x ≠ s) :
    x ∈ l ++ [s] ↔ x ∈ l := by
  simp [List.mem_append, hx]

/-- Core correctness of a successful `set_sim_status` call: for a known
simulation and an admissible status the call succeeds, the concatenation of
the five lists is preserved as a multiset, all other simulations keep their
memberships, the target simulation ends up in the target list, and the
status written to the case's config document is exactly `status`. -/
lemma set_sim_status_ok (info : SimulationInfo) (s st : String)
    (hs : s ∈ allSims info) (hst : st ∈ validStatuses) :
    ∃ info', set_sim_status info s st = .ok (info', st) ∧
      ((allSims info' : Multiset String) = (allSims info : Multiset String)) ∧
      (∀ x, x ≠ s → memIff x info' info) ∧
      s ∈ statusList info' st := by
  obtain ⟨info₁, p, hrem, hms, hmem⟩ := removePrev_ok info s hs
  have hrun : ∀ info₂, appendStatus info₁ st s = .ok info₂ →
      set_sim_status info s st = .ok (info₂, st) := by
    intro info₂ happ
    rw [set_sim_status, if_pos hs, hrem]
    simp [happ]
  simp only [validStatuses, List.mem_cons, List.not_mem_nil, or_false] at hst
  rcases hst with h | h | h | h | h <;> subst h
  · have happ : appendStatus info₁ "not_started" s =
        .ok { info₁ with sim_not_started := info₁.sim_not_started ++ [s] } := by
      simp [appendStatus]
    refine ⟨_, hrun _ happ, ?_, ?_, ?_⟩
    · rw [← hms]
      simp only [allSims, ← Multiset.coe_add, Multiset.coe_singleton]
      abel
    · intro x hx
      refine memIff_trans ?_ (hmem x hx)
      unfold memIff
      refine ⟨?_, ?_, ?_, ?_, ?_⟩ <;> simp [hx]
    · simp [statusList]
  · have happ : appendStatus info₁ "running" s =
        .ok { info₁ with sim_running := info₁.sim_running ++ [s] } := by
      simp [appendStatus]
    refine ⟨_, hrun _ happ, ?_, ?_, ?_⟩
    · rw [← hms]
      simp only [allSims, ← Multiset.coe_add, Multiset.coe_singleton]
      abel
    · intro x hx
      refine memIff_trans ?_ (hmem x hx)
      unfold memIff
      refine ⟨?_, ?_, ?_, ?_, ?_⟩ <;> simp [hx]
    · simp [statusList]
  · have happ : appendStatus info₁ "finished" s =
        .ok { info₁ with sim_finished := info₁.sim_finished ++ [s] } := by
      simp [appendStatus]
    refine ⟨_, hrun _ happ, ?_, ?_, ?_⟩
    · rw [← hms]
      simp only [allSims, ← Multiset.coe_add, Multiset.coe_singleton]
      abel
    · intro x hx
      refine memIff_trans ?_ (hmem x hx)
      unfold memIff
      refine ⟨?_, ?_, ?_, ?_, ?_⟩ <;> simp [hx]
    · simp [statusList]
  · have happ : appendStatus info₁ "interrupted" s =
        .ok { info₁ with sim_interrupted := info₁.sim_interrupted ++ [s] } := by
      simp [appendStatus]
    refine ⟨_, hrun _ happ, ?_, ?_, ?_⟩
    · rw [← hms]
      simp only [allSims, ← Multiset.coe_add, Multiset.coe_singleton]
      abel
    · intro x hx
      refine memIff_trans ?_ (hmem x hx)
      unfold memIff
      refine ⟨?_, ?_, ?_, ?_, ?_⟩ <;> simp [hx]
    · simp [statusList]
  · have happ : appendStatus info₁ "error" s =
        .ok { info₁ with sim_error := info₁.sim_error ++ [s] } := by
      simp [appendStatus]
    refine ⟨_, hrun _ happ, ?_, ?_, ?_⟩
    · rw [← hms]
      simp only [allSims, ← Multiset.coe_add, Multiset.coe_singleton]
      abel
    · intro x hx
      refine memIff_trans ?_ (hmem x hx)
      unfold memIff
      refine ⟨?_, ?_, ?_, ?_, ?_⟩ <;> simp [hx]
    · simp [statusList]

/-- Pairwise disjointness of the five status lists, extracted from nodup-ness
of their concatenation (the direction needed to steer the removal chain of
`set_sim_status`). -/
lemma status_disjoint (info : SimulationInfo) (h : (allSims info).Nodup) :
    (∀ x ∈ info.sim_running, x ∉ info.sim_not_started) ∧
    (∀ x ∈ info.sim_finished, x ∉ info.sim_not_started ∧ x ∉ info.sim_running) ∧
    (∀ x ∈ info.sim_interrupted,
      x ∉ info.sim_not_started ∧ x ∉ info.sim_running ∧ x ∉ info.sim_finished) ∧
    (∀ x ∈ info.sim_error,
      x ∉ info.sim_not_started ∧ x ∉ info.sim_running ∧ x ∉ info.sim_finished ∧
        x ∉ info.sim_interrupted) := by
  unfold allSims at h
  have h1 := h.of_append_left
  have d_e := List.disjoint_of_nodup_append h
  have h2 := h1.of_append_left
  have d_i := List.disjoint_of_nodup_append h1
  have h3 := h2.of_append_left
  have d_f := List.disjoint_of_nodup_append h2
  have d_r := List.disjoint_of_nodup_append h3
  refine ⟨?_, ?_, ?_, ?_⟩
  · intro x hx hx2
    exact d_r hx2 hx
  · intro x hx
    exact ⟨fun hx2 => d_f (List.mem_append_left _ hx2) hx,
           fun hx2 => d_f (List.mem_append_right _ hx2) hx⟩
  · intro x hx
    exact ⟨fun hx2 => d_i (List.mem_append_left _ (List.mem_append_left _ hx2)) hx,
           fun hx2 => d_i (List.mem_append_left _ (List.mem_append_right _ hx2)) hx,
           fun hx2 => d_i (List.mem_append_right _ hx2) hx⟩
  · intro x hx
    exact ⟨fun hx2 =>
             d_e (List.mem_append_left _ (List.mem_append_left _ (List.mem_append_left _ hx2))) hx,
           fun hx2 =>
             d_e (List.mem_append_left _ (List.mem_append_left _ (List.mem_append_right _ hx2))) hx,
           fun hx2 => d_e (List.mem_append_left _ (List.mem_append_right _ hx2)) hx,
           fun hx2 => d_e (List.mem_append_right _ hx2) hx⟩

lemma mem_erase_append_self {s : String} {l : List String} (hs : s ∈ l) (x : String) :
    x ∈ l.erase s ++ [s] ↔ x ∈ l := by
  by_cases hx : x = s
  · subst hx
    simp [hs]
  · rw [mem_append_singleton_iff hx]
    exact List.mem_erase_of_ne hx

/-- A `set_sim_status` call whose target status equals the current status of
the case: the call succeeds (the state file and the config document are
rewritten, the second component of the result being the written status), and
every membership fact of every case is unchanged. -/
lemma set_sim_status_noop (info : SimulationInfo) (s st : String)
    (hnd : (allSims info).Nodup) (hst : st ∈ validStatuses)
    (hs : s ∈ statusList info st) :
    ∃ info', set_sim_status info s st = .ok (info', st) ∧ ∀ x, memIff x info' info := by
  obtain ⟨dr, df, di, de⟩ := status_disjoint info hnd
  simp only [validStatuses, List.mem_cons, List.not_mem_nil, or_false] at hst
  rcases hst with h | h | h | h | h <;> subst h <;> simp [statusList] at hs
  · have hall : s ∈ allSims info := (mem_allSims_iff s info).mpr (Or.inl hs)
    have hrem : removePrev info s =
        .ok ({ info with sim_not_started := info.sim_not_started.erase s }, "not_started") := by
      simp [removePrev, hs]
    have happ : appendStatus { info with sim_not_started := info.sim_not_started.erase s }
        "not_started" s =
        .ok { info with sim_not_started := info.sim_not_started.erase s ++ [s] } := by
      simp [appendStatus]
    refine ⟨{ info with sim_not_started := info.sim_not_started.erase s ++ [s] }, ?_, ?_⟩
    · rw [set_sim_status, if_pos hall, hrem]
      simp [happ]
    · intro x
      refine ⟨?_, Iff.rfl, Iff.rfl, Iff.rfl, Iff.rfl⟩
      exact mem_erase_append_self hs x
  · have hall : s ∈ allSims info := (mem_allSims_iff s info).mpr (Or.inr (Or.inl hs))
    have hns := dr s hs
    have hrem : removePrev info s =
        .ok ({ info with sim_running := info.sim_running.erase s }, "running") := by
      simp [removePrev, hns, hs]
    have happ : appendStatus { info with sim_running := info.sim_running.erase s }
        "running" s =
        .ok { info with sim_running := info.sim_running.erase s ++ [s] } := by
      simp [appendStatus]
    refine ⟨{ info with sim_running := info.sim_running.erase s ++ [s] }, ?_, ?_⟩
    · rw [set_sim_status, if_pos hall, hrem]
      simp [happ]
    · intro x
      refine ⟨Iff.rfl, ?_, Iff.rfl, Iff.rfl, Iff.rfl⟩
      exact mem_erase_append_self hs x
  · have hall : s ∈ allSims info := (mem_allSims_iff s info).mpr (Or.inr (Or.inr (Or.inl hs)))
    obtain ⟨hns, hr⟩ := df s hs
    have hrem : removePrev info s =
        .ok ({ info with sim_finished := info.sim_finished.erase s }, "finished") := by
      simp [removePrev, hns, hr, hs]
    have happ : appendStatus { info with sim_finished := info.sim_finished.erase s }
        "finished" s =
        .ok { info with sim_finished := info.sim_finished.erase s ++ [s] } := by
      simp [appendStatus]
    refine ⟨{ info with sim_finished := info.sim_finished.erase s ++ [s] }, ?_, ?_⟩
    · rw [set_sim_status, if_pos hall, hrem]
      simp [happ]
    · intro x
      refine ⟨Iff.rfl, Iff.rfl, ?_, Iff.rfl, Iff.rfl⟩
      exact mem_erase_append_self hs x
  · have hall : s ∈ allSims info :=
      (mem_allSims_iff s info).mpr (Or.inr (Or.inr (Or.inr (Or.inl hs))))
    obtain ⟨hns, hr, hf⟩ := di s hs
    have hrem : removePrev info s =
        .ok ({ info with sim_interrupted := info.sim_interrupted.erase s }, "interrupted") := by
      simp [removePrev, hns, hr, hf, hs]
    have happ : appendStatus { info with sim_interrupted := info.sim_interrupted.erase s }
        "interrupted" s =
        .ok { info with sim_interrupted := info.sim_interrupted.erase s ++ [s] } := by
      simp [appendStatus]
    refine ⟨{ info with sim_interrupted := info.sim_interrupted.erase s ++ [s] }, ?_, ?_⟩
    · rw [set_sim_status, if_pos hall, hrem]
      simp [happ]
    · intro x
      refine ⟨Iff.rfl, Iff.rfl, Iff.rfl, ?_, Iff.rfl⟩
      exact mem_erase_append_self hs x
  · have hall : s ∈ allSims info :=
      (mem_allSims_iff s info).mpr (Or.inr (Or.inr (Or.inr (Or.inr hs))))
    obtain ⟨hns, hr, hf, hi⟩ := de s hs
    have hrem : removePrev info s =
        .ok ({ info with sim_error := info.sim_error.erase s }, "error") := by
      simp [removePrev, hns, hr, hf, hi, hs]
    have happ : appendStatus { info with sim_error := info.sim_error.erase s }
        "error" s =
        .ok { info with sim_error := info.sim_error.erase s ++ [s] } := by
      simp [appendStatus]
    refine ⟨{ info with sim_error := info.sim_error.erase s ++ [s] }, ?_, ?_⟩
    · rw [set_sim_status, if_pos hall, hrem]
      simp [happ]
    · intro x
      refine ⟨Iff.rfl, Iff.rfl, Iff.rfl, Iff.rfl, ?_⟩
      exact mem_erase_append_self hs x

lemma apply_transitions_ok (calls : List (String × String)) :
    ∀ info : SimulationInfo, (allSims info).Nodup →
      (∀ c ∈ calls, c.1 ∈ allSims info ∧ c.2 ∈ validStatuses) →
      ∃ info', apply_transitions info calls = .ok info' ∧
        List.Perm (allSims info') (allSims info) := by
  induction calls with
  | nil =>
    intro info _ _
    exact ⟨info, rfl, List.Perm.refl _⟩
  | cons c rest ih =>
    intro info hnd hc
    obtain ⟨info₁, hok, hms, _, _⟩ :=
      set_sim_status_ok info c.1 c.2 (hc c (by simp)).1 (hc c (by simp)).2
    have hperm : List.Perm (allSims info₁) (allSims info) := Multiset.coe_eq_coe.mp hms
    have hnd₁ : (allSims info₁).Nodup := hperm.nodup_iff.mpr hnd
    have hrest : ∀ d ∈ rest, d.1 ∈ allSims info₁ ∧ d.2 ∈ validStatuses := by
      intro d hd
      exact ⟨hperm.mem_iff.mpr (hc d (by simp [hd])).1, (hc d (by simp [hd])).2⟩
    obtain ⟨info', hok', hperm'⟩ := ih info₁ hnd₁ hrest
    refine ⟨info', ?_, hperm'.trans hperm⟩
    simp only [apply_transitions, foldExcept, hok] at hok' ⊢
    exact hok'

/-- C1: starting from a `simulation_info` state whose five status lists
partition the case set (no duplicates across or within the lists), any
sequence of `set_sim_status` calls with admissible statuses and known case
ids succeeds and keeps the concatenation of the five lists a permutation of
the original one (so the lists stay pairwise disjoint and their union stays
the original case set); moreover a call whose target status equals the
case's current status leaves every membership fact unchanged while still
returning a rewritten persisted state together with the status written into
the case's config document. -/
theorem set_sim_status_partition (info : SimulationInfo)
    (hnd : (allSims info).Nodup) (calls : List (String × String))
    (hcalls : ∀ c ∈ calls, c.1 ∈ allSims info ∧ c.2 ∈ validStatuses) :
    (∃ info', apply_transitions info calls = .ok info' ∧
      List.Perm (allSims info') (allSims info) ∧ (allSims info').Nodup) ∧
    (∀ s st, st ∈ validStatuses → s ∈ statusList info st →
      ∃ info₁, set_sim_status info s st = .ok (info₁, st) ∧ ∀ x, memIff x info₁ info) := by
  constructor
  · obtain ⟨info', h1, h2⟩ := apply_transitions_ok calls info hnd hcalls
    exact ⟨info', h1, h2, h2.nodup_iff.mpr hnd⟩
  · intro s st hst hs
    exact set_sim_status_noop info s st hnd hst hs

theorem set_sim_status_partition_witness :
    (∃ info', apply_transitions ⟨["a", "b"], ["c"], [], [], []⟩
        [("a", "running"), ("c", "running"), ("b", "finished"), ("a", "error")] = .ok info' ∧
      List.Perm (allSims info') (allSims ⟨["a", "b"], ["c"], [], [], []⟩) ∧
      (allSims info').Nodup) ∧
    (∀ s st, st ∈ validStatuses →
      s ∈ statusList ⟨["a", "b"], ["c"], [], [], []⟩ st →
      ∃ info₁, set_sim_status ⟨["a", "b"], ["c"], [], [], []⟩ s st = .ok (info₁, st) ∧
        ∀ x, memIff x info₁ ⟨["a", "b"], ["c"], [], [], []⟩) :=
  set_sim_status_partition ⟨["a", "b"], ["c"], [], [], []⟩ (by decide) _ (by decide)

/-- C8: a case id found in none of the five status lists makes
`set_sim_status` raise the `ValueError` of simulation_study.py line 410
before any file is rewritten (the error result carries no successor state:
nothing is persisted). -/
theorem set_sim_status_unknown_case (info : SimulationInfo) (s st : String)
    (h : s ∉ allSims info) :
    set_sim_status info s st =
      .error ("Simulation " ++ s ++ " not found in simulation info file.") := by
  rw [set_sim_status, if_neg h]

theorem set_sim_status_unknown_case_witness :
    set_sim_status ⟨["a"], [], ["b"], [], []⟩ "z" "running" =
      .error ("Simulation " ++ "z" ++ " not found in simulation info file.") :=
  set_sim_status_unknown_case ⟨["a"], [], ["b"], [], []⟩ "z" "running" (by decide)

/-- C4 (code bug): `reset_simulations` with `reset_all = True` does not touch
cases in the interrupted list, although its own docstring says reset-all
"resets all the simulations".  Concretely, with one not-started case, one
finished case and one interrupted case, the interrupted case is still
interrupted afterwards and has not been moved to not-started. -/
theorem reset_all_leaves_interrupted :
    reset_simulations ⟨["b"], [], ["c"], ["x"], []⟩ true =
      .ok ⟨["b", "c"], [], [], ["x"], []⟩ ∧
    "x" ∈ (SimulationInfo.mk ["b", "c"] [] [] ["x"] []).sim_interrupted ∧
    "x" ∉ (SimulationInfo.mk ["b", "c"] [] [] ["x"] []).sim_not_started := by
  refine ⟨?_, by simp, by simp⟩
  rfl

lemma statusList_finished (info : SimulationInfo) :
    statusList info "finished" = info.sim_finished := by
  simp [statusList]

lemma statusList_error (info : SimulationInfo) :
    statusList info "error" = info.sim_error := by
  simp [statusList]

/-- Behaviour of the `_update_remote_status` loop over an arbitrary list of
simulations to check: it never raises, preserves the case set, leaves
unchecked simulations untouched, and settles every checked simulation
according to its sentinel files. -/
lemma remote_fold_spec (fileExists : String → Bool) :
    ∀ (toCheck : List String) (cur : SimulationInfo),
      (allSims cur).Nodup → toCheck.Nodup → (∀ s ∈ toCheck, s ∈ allSims cur) →
      ∃ cur', foldExcept (remoteStep fileExists) cur toCheck = .ok cur' ∧
        List.Perm (allSims cur') (allSims cur) ∧
        (∀ x, x ∉ toCheck → memIff x cur' cur) ∧
        (∀ s ∈ toCheck,
          (fileExists ("FINISHED_" ++ s) = true → s ∈ cur'.sim_finished) ∧
          (fileExists ("FINISHED_" ++ s) = false →
            (fileExists ("ERROR_" ++ s) = true ∨ fileExists ("IO_ERROR_" ++ s) = true) →
            s ∈ cur'.sim_error) ∧
          (fileExists ("FINISHED_" ++ s) = false → fileExists ("ERROR_" ++ s) = false →
            fileExists ("IO_ERROR_" ++ s) = false → memIff s cur' cur)) := by
  intro toCheck
  induction toCheck with
  | nil =>
    intro cur _ _ _
    exact ⟨cur, rfl, List.Perm.refl _, fun x _ => memIff_refl x cur, by simp⟩
  | cons s rest ih =>
    intro cur hnd hndC hsub
    have hsrest : s ∉ rest := (List.nodup_cons.mp hndC).1
    have hrestnd : rest.Nodup := (List.nodup_cons.mp hndC).2
    have hscur : s ∈ allSims cur := hsub s (by simp)
    have hrestsub : ∀ t ∈ rest, t ∈ allSims cur := fun t ht => hsub t (by simp [ht])
    -- helper finishing the induction once the head step has produced state cur₁
    have assemble :
        ∀ (cur₁ : SimulationInfo),
          List.Perm (allSims cur₁) (allSims cur) →
          (∀ x, x ≠ s → memIff x cur₁ cur) →
          ∃ cur', foldExcept (remoteStep fileExists) cur₁ rest = .ok cur' ∧
            List.Perm (allSims cur') (allSims cur₁) ∧
            (∀ x, x ∉ rest → memIff x cur' cur₁) ∧
            (∀ t ∈ rest,
              (fileExists ("FINISHED_" ++ t) = true → t ∈ cur'.sim_finished) ∧
              (fileExists ("FINISHED_" ++ t) = false →
                (fileExists ("ERROR_" ++ t) = true ∨ fileExists ("IO_ERROR_" ++ t) = true) →
                t ∈ cur'.sim_error) ∧
              (fileExists ("FINISHED_" ++ t) = false → fileExists ("ERROR_" ++ t) = false →
                fileExists ("IO_ERROR_" ++ t) = false → memIff t cur' cur₁)) := by
      intro cur₁ hperm hmem₁
      exact ih cur₁ (hperm.nodup_iff.mpr hnd) hrestnd
        (fun t ht => hperm.mem_iff.mpr (hrestsub t ht))
    by_cases hF : fileExists ("FINISHED_" ++ s) = true
    · obtain ⟨cur₁, hok, hms, hmem₁, htar⟩ :=
        set_sim_status_ok cur s "finished" hscur (by simp [validStatuses])
      have hperm₁ : List.Perm (allSims cur₁) (allSims cur) := Multiset.coe_eq_coe.mp hms
      obtain ⟨cur', hok', hperm', hunch', hout'⟩ := assemble cur₁ hperm₁ hmem₁
      have hstep : remoteStep fileExists cur s = .ok cur₁ := by
        rw [remoteStep, if_pos hF, hok]
      refine ⟨cur', ?_, hperm'.trans hperm₁, ?_, ?_⟩
      · rw [foldExcept, hstep]
        exact hok'
      · intro x hx
        have hxs : x ≠ s := fun hh => hx (hh ▸ List.mem_cons_self s rest)
        have hxrest : x ∉ rest := fun hh => hx (List.mem_cons_of_mem s hh)
        exact memIff_trans (hunch' x hxrest) (hmem₁ x hxs)
      · intro t ht
        rcases List.mem_cons.mp ht with rfl | htr
        · refine ⟨?_, ?_, ?_⟩
          · intro _
            have h1 : t ∈ cur₁.sim_finished := by
              rw [statusList_finished] at htar
              exact htar
            exact ((hunch' t hsrest).2.2.1).mpr h1
          · intro hF2
            rw [hF] at hF2
            exact absurd hF2 (by simp)
          · intro hF2
            rw [hF] at hF2
            exact absurd hF2 (by simp)
        · have htns : t ≠ s := fun hh => hsrest (hh ▸ htr)
          refine ⟨(hout' t htr).1, (hout' t htr).2.1, ?_⟩
          intro h1 h2 h3
          exact memIff_trans ((hout' t htr).2.2 h1 h2 h3) (hmem₁ t htns)
    · have hFf : fileExists ("FINISHED_" ++ s) = false := by
        cases hh : fileExists ("FINISHED_" ++ s)
        · rfl
        · exact absurd hh hF
      by_cases hE : fileExists ("ERROR_" ++ s) = true
      · obtain ⟨cur₁, hok, hms, hmem₁, htar⟩ :=
          set_sim_status_ok cur s "error" hscur (by simp [validStatuses])
        have hperm₁ : List.Perm (allSims cur₁) (allSims cur) := Multiset.coe_eq_coe.mp hms
        obtain ⟨cur', hok', hperm', hunch', hout'⟩ := assemble cur₁ hperm₁ hmem₁
        have hstep : remoteStep fileExists cur s = .ok cur₁ := by
          rw [remoteStep, if_neg (by simp [hFf]), if_pos hE, hok]
        refine ⟨cur', ?_, hperm'.trans hperm₁, ?_, ?_⟩
        · rw [foldExcept, hstep]
          exact hok'
        · intro x hx
          have hxs : x ≠ s := fun hh => hx (hh ▸ List.mem_cons_self s rest)
          have hxrest : x ∉ rest := fun hh => hx (List.mem_cons_of_mem s hh)
          exact memIff_trans (hunch' x hxrest) (hmem₁ x hxs)
        · intro t ht
          rcases List.mem_cons.mp ht with rfl | htr
          · refine ⟨?_, ?_, ?_⟩
            · intro hF2
              rw [hFf] at hF2
              exact absurd hF2 (by simp)
            · intro _ _
              have h1 : t ∈ cur₁.sim_error := by
                rw [statusList_error] at htar
                exact htar
              exact ((hunch' t hsrest).2.2.2.2).mpr h1
            · intro _ h2 _
              rw [hE] at h2
              exact absurd h2 (by simp)
          · have htns : t ≠ s := fun hh => hsrest (hh ▸ htr)
            refine ⟨(hout' t htr).1, (hout' t htr).2.1, ?_⟩
            intro h1 h2 h3
            exact memIff_trans ((hout' t htr).2.2 h1 h2 h3) (hmem₁ t htns)
      · have hEf : fileExists ("ERROR_" ++ s) = false := by
          cases hh : fileExists ("ERROR_" ++ s)
          · rfl
          · exact absurd hh hE
        by_cases hioErr : fileExists ("IO_ERROR_" ++ s) = true
        · obtain ⟨cur₁, hok, hms, hmem₁, htar⟩ :=
            set_sim_status_ok cur s "error" hscur (by simp [validStatuses])
          have hperm₁ : List.Perm (allSims cur₁) (allSims cur) := Multiset.coe_eq_coe.mp hms
          obtain ⟨cur', hok', hperm', hunch', hout'⟩ := assemble cur₁ hperm₁ hmem₁
          have hstep : remoteStep fileExists cur s = .ok cur₁ := by
            rw [remoteStep, if_neg (by simp [hFf]), if_neg (by simp [hEf]), if_pos hioErr, hok]
          refine ⟨cur', ?_, hperm'.trans hperm₁, ?_, ?_⟩
          · rw [foldExcept, hstep]
            exact hok'
          · intro x hx
            have hxs : x ≠ s := fun hh => hx (hh ▸ List.mem_cons_self s rest)
            have hxrest : x ∉ rest := fun hh => hx (List.mem_cons_of_mem s hh)
            exact memIff_trans (hunch' x hxrest) (hmem₁ x hxs)
          · intro t ht
            rcases List.mem_cons.mp ht with rfl | htr
            · refine ⟨?_, ?_, ?_⟩
              · intro hF2
                rw [hFf] at hF2
                exact absurd hF2 (by simp)
              · intro _ _
                have h1 : t ∈ cur₁.sim_error := by
                  rw [statusList_error] at htar
                  exact htar
                exact ((hunch' t hsrest).2.2.2.2).mpr h1
              · intro _ _ h3
                rw [hioErr] at h3
                exact absurd h3 (by simp)
            · have htns : t ≠ s := fun hh => hsrest (hh ▸ htr)
              refine ⟨(hout' t htr).1, (hout' t htr).2.1, ?_⟩
              intro h1 h2 h3
              exact memIff_trans ((hout' t htr).2.2 h1 h2 h3) (hmem₁ t htns)
        · have hioErrF : fileExists ("IO_ERROR_" ++ s) = false := by
            cases hh : fileExists ("IO_ERROR_" ++ s)
            · rfl
            · exact absurd hh hioErr
          obtain ⟨cur', hok', hperm', hunch', hout'⟩ :=
            ih cur hnd hrestnd hrestsub
          have hstep : remoteStep fileExists cur s = .ok cur := by
            rw [remoteStep, if_neg (by simp [hFf]), if_neg (by simp [hEf]),
              if_neg (by simp [hioErrF])]
          refine ⟨cur', ?_, hperm', ?_, ?_⟩
          · rw [foldExcept, hstep]
            exact hok'
          · intro x hx
            exact hunch' x (fun hh => hx (List.mem_cons_of_mem s hh))
          · intro t ht
            rcases List.mem_cons.mp ht with rfl | htr
            · refine ⟨?_, ?_, ?_⟩
              · intro hF2
                rw [hFf] at hF2
                exact absurd hF2 (by simp)
              · intro _ h2
                rcases h2 with h2 | h2
                · rw [hEf] at h2
                  exact absurd h2 (by simp)
                · rw [hioErrF] at h2
                  exact absurd h2 (by simp)
              · intro _ _ _
                exact hunch' t hsrest
            · exact hout' t htr

/-- C9: starting from a partitioned state, `_update_remote_status` succeeds
and: a not-started or running case with an `ERROR_` or `IO_ERROR_` sentinel
(and no `FINISHED_` sentinel) ends in the error list and not in the running
list; a checked case with no sentinel keeps its status; cases in the
finished, interrupted and error lists are not touched. -/
theorem update_remote_status_spec (info : SimulationInfo)
    (fileExists : String → Bool) (hnd : (allSims info).Nodup) :
    ∃ info', update_remote_status info fileExists = .ok info' ∧
      (∀ s ∈ info.sim_not_started ++ info.sim_running,
        fileExists ("FINISHED_" ++ s) = false →
        (fileExists ("ERROR_" ++ s) = true ∨ fileExists ("IO_ERROR_" ++ s) = true) →
        s ∈ info'.sim_error ∧ s ∉ info'.sim_running) ∧
      (∀ s ∈ info.sim_not_started,
        fileExists ("FINISHED_" ++ s) = false → fileExists ("ERROR_" ++ s) = false →
        fileExists ("IO_ERROR_" ++ s) = false → s ∈ info'.sim_not_started) ∧
      (∀ s ∈ info.sim_running,
        fileExists ("FINISHED_" ++ s) = false → fileExists ("ERROR_" ++ s) = false →
        fileExists ("IO_ERROR_" ++ s) = false → s ∈ info'.sim_running) ∧
      (∀ s ∈ info.sim_finished, s ∈ info'.sim_finished) ∧
      (∀ s ∈ info.sim_interrupted, s ∈ info'.sim_interrupted) ∧
      (∀ s ∈ info.sim_error, s ∈ info'.sim_error) := by
  have hndC : (info.sim_not_started ++ info.sim_running).Nodup := by
    have hh := hnd
    unfold allSims at hh
    exact hh.of_append_left.of_append_left.of_append_left
  have hsub : ∀ t ∈ info.sim_not_started ++ info.sim_running, t ∈ allSims info := by
    intro t ht
    rcases List.mem_append.mp ht with h | h
    · exact (mem_allSims_iff t info).mpr (Or.inl h)
    · exact (mem_allSims_iff t info).mpr (Or.inr (Or.inl h))
  obtain ⟨info', hok, hperm, hunch, hout⟩ :=
    remote_fold_spec fileExists (info.sim_not_started ++ info.sim_running) info hnd hndC hsub
  have hnd' : (allSims info').Nodup := hperm.nodup_iff.mpr hnd
  obtain ⟨_, df, di, de⟩ := status_disjoint info hnd
  obtain ⟨_, _, _, de'⟩ := status_disjoint info' hnd'
  refine ⟨info', hok, ?_, ?_, ?_, ?_, ?_, ?_⟩
  · intro s hs hF hEIO
    have herr : s ∈ info'.sim_error := (hout s hs).2.1 hF hEIO
    exact ⟨herr, (de' s herr).2.1⟩
  · intro s hs hF hE hioErr
    have hm := (hout s (List.mem_append_left _ hs)).2.2 hF hE hioErr
    exact hm.1.mpr hs
  · intro s hs hF hE hioErr
    have hm := (hout s (List.mem_append_right _ hs)).2.2 hF hE hioErr
    exact hm.2.1.mpr hs
  · intro s hs
    have hnot : s ∉ info.sim_not_started ++ info.sim_running := by
      obtain ⟨h1, h2⟩ := df s hs
      simp [List.mem_append, h1, h2]
    exact ((hunch s hnot).2.2.1).mpr hs
  · intro s hs
    have hnot : s ∉ info.sim_not_started ++ info.sim_running := by
      obtain ⟨h1, h2, _⟩ := di s hs
      simp [List.mem_append, h1, h2]
    exact ((hunch s hnot).2.2.2.1).mpr hs
  · intro s hs
    have hnot : s ∉ info.sim_not_started ++ info.sim_running := by
      obtain ⟨h1, h2, _, _⟩ := de s hs
      simp [List.mem_append, h1, h2]
    exact ((hunch s hnot).2.2.2.2).mpr hs

theorem update_remote_status_spec_witness :
    ∃ info', update_remote_status ⟨["a"], ["b"], [], [], []⟩
        (fun n => n == "ERROR_b") = .ok info' ∧
      (∀ s ∈ (SimulationInfo.mk ["a"] ["b"] [] [] []).sim_not_started ++
          (SimulationInfo.mk ["a"] ["b"] [] [] []).sim_running,
        (fun n => n == "ERROR_b") ("FINISHED_" ++ s) = false →
        ((fun n => n == "ERROR_b") ("ERROR_" ++ s) = true ∨
          (fun n => n == "ERROR_b") ("IO_ERROR_" ++ s) = true) →
        s ∈ info'.sim_error ∧ s ∉ info'.sim_running) ∧
      (∀ s ∈ (SimulationInfo.mk ["a"] ["b"] [] [] []).sim_not_started,
        (fun n => n == "ERROR_b") ("FINISHED_" ++ s) = false →
        (fun n => n == "ERROR_b") ("ERROR_" ++ s) = false →
        (fun n => n == "ERROR_b") ("IO_ERROR_" ++ s) = false →
        s ∈ info'.sim_not_started) ∧
      (∀ s ∈ (SimulationInfo.mk ["a"] ["b"] [] [] []).sim_running,
        (fun n => n == "ERROR_b") ("FINISHED_" ++ s) = false →
        (fun n => n == "ERROR_b") ("ERROR_" ++ s) = false →
        (fun n => n == "ERROR_b") ("IO_ERROR_" ++ s) = false →
        s ∈ info'.sim_running) ∧
      (∀ s ∈ (SimulationInfo.mk ["a"] ["b"] [] [] []).sim_finished, s ∈ info'.sim_finished) ∧
      (∀ s ∈ (SimulationInfo.mk ["a"] ["b"] [] [] []).sim_interrupted,
        s ∈ info'.sim_interrupted) ∧
      (∀ s ∈ (SimulationInfo.mk ["a"] ["b"] [] [] []).sim_error, s ∈ info'.sim_error) :=
  update_remote_status_spec ⟨["a"], ["b"], [], [], []⟩ (fun n => n == "ERROR_b") (by decide)

/-!
Model of `simanager/tools.py`.

Python values reaching `number_filename_formatter` are modelled by `PyVal`:
machine floats are modelled as exact rationals (the claims about the
formatter only concern decimal truncation, which the rational model follows;
Python rounds the binary double to the requested decimals with
ties-to-even, the model rounds half-up, which differs only on exact decimal
ties), `bool` is a subclass of `int` in Python so booleans take the
`isinstance(number, int)` early return with `str(True)`, and `pnone` stands
for any value for which `float(number)` raises `TypeError` or `ValueError`.
-/

inductive PyVal where
  | pint : ℤ → PyVal
  | pfloat : ℚ → PyVal
  | pbool : Bool → PyVal
  | pnone : PyVal
deriving DecidableEq, Repr

def padZeros (w : ℕ) (s : String) : String :=
  String.mk (List.replicate (w - s.length) '0') ++ s

/-- `string.replace(".", "d")`: for a one-character pattern, Python
`str.replace` is per-character substitution. -/
def replaceDot (s : String) : String :=
  String.mk (s.data.map (fun c => if c = '.' then 'd' else c))

/-- The value `q * 10 ^ prec` rounded to the nearest integer (half away from
zero towards plus infinity), computed on the numerator and denominator:
`⌊q * 10 ^ prec + 1 / 2⌋ = (2 * num * 10 ^ prec + den) fdiv (2 * den)`. -/
def scaledRound (prec : ℕ) (q : ℚ) : ℤ :=
  Int.fdiv (2 * q.num * 10 ^ prec + (q.den : ℤ)) (2 * (q.den : ℤ))

/-- The string produced by Python `"{:.{prec}f}".format(number)` on the
rational model: sign of the value, integer part, a dot, and exactly `prec`
fractional digits of the rounded scaled value. -/
def fmtFixed (prec : ℕ) (q : ℚ) : String :=
  (if q.num < 0 then "-" else "") ++
    toString ((scaledRound prec q).natAbs / 10 ^ prec) ++ "." ++
    padZeros prec (toString ((scaledRound prec q).natAbs % 10 ^ prec))

/-- `number_filename_formatter` (tools.py lines 18-33): an `int` (including
`bool`) is returned as `str(number)` directly; a value convertible to float
is formatted with `truncate` decimal digits; a value raising
`TypeError`/`ValueError` in `float(number)` falls back to
`str(alternative_idx)`; finally `.` is replaced by `d` (the early `int`
return skips the replacement). -/
def number_filename_formatter (number : PyVal) (alternativeIdx : ℕ) (truncate : ℕ) :
    String :=
  match number with
  | .pint n => toString n
  | .pbool b => if b then "True" else "False"
  | .pfloat q => replaceDot (fmtFixed truncate q)
  | .pnone => replaceDot (toString alternativeIdx)

/-- C6 counterexample: two distinct float values (1e-7 and 2e-7) produce the
same folder-name fragment "0d00000" even though their disambiguating indices
(3 and 7) differ, and the fragment is not the index fallback: truncation
lossiness does not trigger the positional-index fallback, so distinct axis
values do not always produce distinct fragments. -/
theorem number_filename_formatter_collision :
    mkRat 1 10000000 ≠ mkRat 1 5000000 ∧
    number_filename_formatter (.pfloat (mkRat 1 10000000)) 3 5 =
      number_filename_formatter (.pfloat (mkRat 1 5000000)) 7 5 ∧
    number_filename_formatter (.pfloat (mkRat 1 10000000)) 3 5 ≠ "3" := by
  refine ⟨by decide, by decide, by decide⟩

/-- C6 amended: the formatter truncates a float value to `truncate = 5`
decimal digits with `.` replaced by `d` — any two values with the same sign
whose scaled roundings agree collide, whatever their indices — and the
positional index is used as the fragment only for non-numeric values
(`float(…)` raising), never because truncation was lossy; integers are
rendered exactly as `str(number)`. -/
theorem number_filename_formatter_behavior :
    (∀ n : ℤ, ∀ i : ℕ, number_filename_formatter (.pint n) i 5 = toString n) ∧
    (∀ q r : ℚ, ∀ i j : ℕ, scaledRound 5 q = scaledRound 5 r →
      (q.num < 0 ↔ r.num < 0) →
      number_filename_formatter (.pfloat q) i 5 =
        number_filename_formatter (.pfloat r) j 5) ∧
    (∀ i : ℕ, number_filename_formatter .pnone i 5 = replaceDot (toString i)) := by
  refine ⟨fun n i => rfl, ?_, fun i => rfl⟩
  intro q r i j h hsign
  show replaceDot (fmtFixed 5 q) = replaceDot (fmtFixed 5 r)
  unfold fmtFixed
  rw [h]
  by_cases hq : q.num < 0
  · rw [if_pos hq, if_pos (hsign.mp hq)]
  · rw [if_neg hq, if_neg (fun hr => hq (hsign.mpr hr))]

theorem number_filename_formatter_behavior_witness :
    number_filename_formatter (.pint 42) 0 5 = toString (42 : ℤ) ∧
    number_filename_formatter (.pfloat (mkRat 1 3)) 0 5 =
      number_filename_formatter (.pfloat (mkRat 1 3)) 9 5 ∧
    number_filename_formatter .pnone 7 5 = replaceDot (toString 7) :=
  ⟨number_filename_formatter_behavior.1 42 0,
   number_filename_formatter_behavior.2.1 (mkRat 1 3) (mkRat 1 3) 0 9 rfl Iff.rfl,
   number_filename_formatter_behavior.2.2 7⟩

/-!
Model of `update_nested_dict` (tools.py lines 36-62).  A YAML/JSON-style
nested document: a Python dict is a list of key-value entries with unique
keys in insertion order; `d[k] = v` replaces the value in place when the key
exists and appends the entry otherwise.
-/

inductive YVal (α : Type) where
  | dict : List (String × YVal α) → YVal α
  | leaf : α → YVal α

inductive UpdateErr where
  | keyNotFound : String → UpdateErr
  | notADict : String → UpdateErr
deriving DecidableEq, Repr

/-- Python `str.split(sep)` for a one-character separator, on the character
list: splits at every separator occurrence, keeping empty fragments, and
always returns at least one fragment (`"".split("/") == [""]`). -/
def splitChars (sep : Char) : List Char → List (List Char)
  | [] => [[]]
  | c :: rest =>
    if c = sep then [] :: splitChars sep rest
    else
      match splitChars sep rest with
      | [] => [[c]]
      | g :: gs => (c :: g) :: gs

def pySplit (sep : Char) (s : String) : List String :=
  (splitChars sep s.data).map String.mk

def lookupEntry {α : Type} : List (String × YVal α) → String → Option (YVal α)
  | [], _ => none
  | (k, v) :: rest, key => if k = key then some v else lookupEntry rest key

def setEntry {α : Type} : List (String × YVal α) → String → YVal α →
    List (String × YVal α)
  | [], key, v => [(key, v)]
  | (k, w) :: rest, key, v =>
    if k = key then (key, v) :: rest else (k, w) :: setEntry rest key v

/-- The loop of `update_nested_dict` over the split key chain: for every key
except the last, a missing key raises `KeyError` and a present key whose
value is not a dict raises `ValueError` (checked in this order, exactly as in
the source); the final key is assigned unconditionally.  The `[]` case is
unreachable from `update_nested_dict` because `str.split` always returns a
non-empty list. -/
def updateGo {α : Type} : List (String × YVal α) → List String → α →
    Except UpdateErr (List (String × YVal α))
  | es, [], _ => .ok es
  | es, [k], v => .ok (setEntry es k (.leaf v))
  | es, k :: rest, v =>
    match lookupEntry es k with
    | none => .error (.keyNotFound k)
    | some (.leaf _) => .error (.notADict k)
    | some (.dict inner) =>
      match updateGo inner rest v with
      | .error e => .error e
      | .ok inner₂ => .ok (setEntry es k (.dict inner₂))

/-- `update_nested_dict(nested_dict, key_chain, value)`:
`keys = key_chain.split("/")` followed by the descend-and-assign loop. -/
def update_nested_dict {α : Type} (nested : List (String × YVal α))
    (keyChain : String) (value : α) : Except UpdateErr (List (String × YVal α)) :=
  updateGo nested (pySplit '/' keyChain) value

/-- Specification-side resolution of the intermediate segments of a key
path, used to state the error-handling claims: it walks all given keys and
reports the first missing key or non-dict intermediate. -/
def resolveIntermediates {α : Type} : List (String × YVal α) → List String →
    Except UpdateErr (List (String × YVal α))
  | es, [] => .ok es
  | es, k :: rest =>
    match lookupEntry es k with
    | none => .error (.keyNotFound k)
    | some (.leaf _) => .error (.notADict k)
    | some (.dict inner) => resolveIntermediates inner rest

/-- Value stored at a (non-empty) key path in a nested document. -/
def getPath {α : Type} : List (String × YVal α) → List String → Option (YVal α)
  | _, [] => none
  | es, [k] => lookupEntry es k
  | es, k :: rest =>
    match lookupEntry es k with
    | some (.dict inner) => getPath inner rest
    | _ => none

lemma lookupEntry_setEntry_self {α : Type} (es : List (String × YVal α))
    (k : String) (v : YVal α) : lookupEntry (setEntry es k v) k = some v := by
  induction es with
  | nil => simp [setEntry, lookupEntry]
  | cons e rest ih =>
    obtain ⟨k', w⟩ := e
    by_cases h : k' = k
    · subst h
      simp [setEntry, lookupEntry]
    · simp [setEntry, lookupEntry, h, ih]

lemma updateGo_spec {α : Type} :
    ∀ (keys : List String) (es : List (String × YVal α)) (v : α), keys ≠ [] →
      (∀ e, updateGo es keys v = .error e ↔
        resolveIntermediates es keys.dropLast = .error e) ∧
      (∀ es₂, resolveIntermediates es keys.dropLast = .ok es₂ →
        ∃ es', updateGo es keys v = .ok es' ∧ getPath es' keys = some (.leaf v)) := by
  intro keys
  induction keys with
  | nil =>
    intro es v hne
    exact absurd rfl hne
  | cons k rest ih =>
    intro es v _
    cases rest with
    | nil =>
      constructor
      · intro e
        simp [updateGo, resolveIntermediates, List.dropLast]
      · intro es₂ h
        simp only [List.dropLast, resolveIntermediates] at h
        refine ⟨setEntry es k (.leaf v), by simp [updateGo], ?_⟩
        simp [getPath, lookupEntry_setEntry_self]
    | cons r0 rest' =>
      have hdl : (k :: r0 :: rest').dropLast = k :: (r0 :: rest').dropLast := rfl
      cases hlk : lookupEntry es k with
      | none =>
        constructor
        · intro e
          simp [updateGo, resolveIntermediates, hdl, hlk]
        · intro es₂ h
          rw [hdl] at h
          simp [resolveIntermediates, hlk] at h
      | some w =>
        cases w with
        | leaf a =>
          constructor
          · intro e
            simp [updateGo, resolveIntermediates, hdl, hlk]
          · intro es₂ h
            rw [hdl] at h
            simp [resolveIntermediates, hlk] at h
        | dict inner =>
          obtain ⟨ih1, ih2⟩ := ih inner v (by simp)
          constructor
          · intro e
            rw [hdl]
            simp only [updateGo, resolveIntermediates, hlk]
            cases hgo : updateGo inner (r0 :: rest') v with
            | error e2 =>
              rw [(ih1 e2).mp hgo]
            | ok inner₂ =>
              constructor
              · intro hcontra
                simp at hcontra
              · intro hres
                have hh := (ih1 e).mpr hres
                rw [hgo] at hh
                exact absurd hh (by simp)
          · intro es₂ h
            rw [hdl] at h
            simp only [resolveIntermediates, hlk] at h
            obtain ⟨inner₂, hgo, hget⟩ := ih2 es₂ h
            refine ⟨setEntry es k (.dict inner₂), ?_, ?_⟩
            · simp only [updateGo, hlk, hgo]
            · simp only [getPath, lookupEntry_setEntry_self]
              exact hget

/-- C7: for every nested document and key path, `update_nested_dict` raises
`KeyError` exactly when some intermediate segment is missing (all earlier
ones resolving to nested dicts), raises `ValueError` exactly when the first
offending intermediate segment resolves to a non-dict value, and otherwise
succeeds and stores the value at the full path. -/
theorem update_nested_dict_errors {α : Type} (es : List (String × YVal α))
    (chain : String) (v : α) (keys : List String)
    (hk : keys = pySplit '/' chain) (hne : keys ≠ []) :
    (∀ k, update_nested_dict es chain v = .error (.keyNotFound k) ↔
      resolveIntermediates es keys.dropLast = .error (.keyNotFound k)) ∧
    (∀ k, update_nested_dict es chain v = .error (.notADict k) ↔
      resolveIntermediates es keys.dropLast = .error (.notADict k)) ∧
    (∀ es₂, resolveIntermediates es keys.dropLast = .ok es₂ →
      ∃ es', update_nested_dict es chain v = .ok es' ∧
        getPath es' keys = some (.leaf v)) := by
  subst hk
  obtain ⟨h1, h2⟩ := updateGo_spec (pySplit '/' chain) es v hne
  exact ⟨fun k => h1 (.keyNotFound k), fun k => h1 (.notADict k), h2⟩

theorem update_nested_dict_errors_witness :
    (∀ k, update_nested_dict [("a", YVal.dict [("b", YVal.leaf (1 : ℤ))]),
        ("c", YVal.leaf 2)] "a/b" (5 : ℤ) = .error (.keyNotFound k) ↔
      resolveIntermediates [("a", YVal.dict [("b", YVal.leaf (1 : ℤ))]),
        ("c", YVal.leaf 2)] (["a", "b"] : List String).dropLast =
        .error (.keyNotFound k)) ∧
    (∀ k, update_nested_dict [("a", YVal.dict [("b", YVal.leaf (1 : ℤ))]),
        ("c", YVal.leaf 2)] "a/b" (5 : ℤ) = .error (.notADict k) ↔
      resolveIntermediates [("a", YVal.dict [("b", YVal.leaf (1 : ℤ))]),
        ("c", YVal.leaf 2)] (["a", "b"] : List String).dropLast =
        .error (.notADict k)) ∧
    (∀ es₂,
      resolveIntermediates [("a", YVal.dict [("b", YVal.leaf (1 : ℤ))]),
        ("c", YVal.leaf 2)] (["a", "b"] : List String).dropLast = .ok es₂ →
      ∃ es', update_nested_dict [("a", YVal.dict [("b", YVal.leaf (1 : ℤ))]),
        ("c", YVal.leaf 2)] "a/b" (5 : ℤ) = .ok es' ∧
        getPath es' ["a", "b"] = some (.leaf 5)) :=
  update_nested_dict_errors [("a", YVal.dict [("b", YVal.leaf (1 : ℤ))]),
    ("c", YVal.leaf 2)] "a/b" 5 ["a", "b"] (by decide) (by simp)

/-- C10: when all intermediate segments resolve to nested dicts,
`update_nested_dict` does not raise even if the final segment is absent: it
creates the final key and assigns the value there. -/
theorem update_nested_dict_missing_leaf {α : Type} (es : List (String × YVal α))
    (chain : String) (v : α) (keys : List String)
    (hk : keys = pySplit '/' chain) (hne : keys ≠ [])
    (es₂ : List (String × YVal α))
    (hres : resolveIntermediates es keys.dropLast = .ok es₂)
    (hlast : lookupEntry es₂ (keys.getLast hne) = none) :
    ∃ es', update_nested_dict es chain v = .ok es' ∧
      getPath es' keys = some (.leaf v) := by
  subst hk
  exact (updateGo_spec (pySplit '/' chain) es v hne).2 es₂ hres

theorem update_nested_dict_missing_leaf_witness :
    ∃ es', update_nested_dict [("a", YVal.dict [("b", YVal.leaf (1 : ℤ))])]
        "a/x" (7 : ℤ) = .ok es' ∧
      getPath es' ["a", "x"] = some (.leaf 7) :=
  update_nested_dict_missing_leaf [("a", YVal.dict [("b", YVal.leaf (1 : ℤ))])]
    "a/x" 7 ["a", "x"] (by decide) (by simp) [("b", YVal.leaf 1)] rfl rfl

/-!
Model of `simanager/parameter_inspection.py` and of the
combination engine of `simanager/simulation_study.py`
(`build_parameter_combinations`, `yield_parameter_combinations`).

Numeric parameter values are modelled in exact rational arithmetic (numpy
computes in binary floating point; no claim depends on the generated
numeric values, only on list lengths and on which branch raises).
`np.logspace` applies base-10 exponentials and Python `str(float)` is the
shortest-roundtrip decimal repr — neither is a rational function, so both
are abstracted as explicit function arguments of `post_init`.
-/

/-- A Python string value among parameter values (`PyVal.pstr`) would be fed
to `float(s)` by the formatter; only non-parseable strings (for which
`float` raises `ValueError`) are modelled, numeric strings are outside the
model. -/
inductive PyParam where
  | pint : ℤ → PyParam
  | pfloat : ℚ → PyParam
  | pbool : Bool → PyParam
  | pstr : String → PyParam
deriving DecidableEq, Repr

instance : Inhabited PyParam := ⟨.pint 0⟩

/-- `ParameterInspection` as declared (before `__post_init__` runs):
the dataclass fields with their defaults. -/
structure ParamInit where
  parameter_name : String
  inspection_method : String
  min_value : Option ℚ
  max_value : Option ℚ
  n_samples : Option ℕ
  values : Option (List PyParam)
  combination_idx : Int
  combination_method : Option String
  parameter_file_name : Option String
  force_type : Option String
deriving DecidableEq, Repr

/-- `ParameterInspection` after a successful `__post_init__`: values are
materialized eagerly and `parameter_file_name` defaults to
`parameter_name`.  The value type is kept generic, the engine never looks
inside values. -/
structure ParamSpec (α : Type) where
  parameter_name : String
  parameter_file_name : String
  values : List α
  combination_idx : Int
  combination_method : Option String
deriving DecidableEq, Repr

/-- `np.arange(min_value, max_value)` with the default step 1 over the
rationals: `⌈max - min⌉` samples starting at `min`. -/
def arangeQ (a b : ℚ) : List ℚ :=
  (List.range (Int.toNat ⌈b - a⌉)).map (fun i => a + i)

/-- `np.linspace(min_value, max_value, n_samples)` over the rationals. -/
def linspaceQ (a b : ℚ) (n : ℕ) : List ℚ :=
  if n = 0 then []
  else if n = 1 then [a]
  else (List.range n).map (fun i => a + i * ((b - a) / ((n : ℚ) - 1)))

/-- Python `int(float)`: truncation toward zero. -/
def pyTrunc (q : ℚ) : ℤ := if q < 0 then ⌈q⌉ else ⌊q⌋

/-- `ParameterInspection._force_type` (parameter_inspection.py lines
126-136): coerce a generated numeric value according to `force_type`, or
apply the branch's default coercion (`int` for range, `float` for
linspace/logspace) when `force_type` is `None` or unrecognized. -/
def forceTypeFn (strOfFloat : ℚ → String) (ft : Option String)
    (dflt : ℚ → PyParam) (q : ℚ) : PyParam :=
  match ft with
  | some "int" => .pint (pyTrunc q)
  | some "float" => .pfloat q
  | some "bool" => .pbool (q != 0)
  | some "str" => .pstr (strOfFloat q)
  | _ => dflt q

/-- `ParameterInspection.__post_init__` (parameter_inspection.py lines
81-124): the `range` check runs first (its own `if`), then the
`linspace`/`logspace`/`custom` chain; each generation method raises
`ValueError` when its required fields are missing, `custom` keeps the given
values unchanged (no coercion), and `parameter_file_name` falls back to
`parameter_name`.  `logspaceFn` abstracts
`np.logspace(log10(min), log10(max), n)`, `strOfFloat` abstracts Python
`str` of a float. -/
def post_init (logspaceFn : ℚ → ℚ → ℕ → List ℚ) (strOfFloat : ℚ → String)
    (p : ParamInit) : Except String (ParamSpec PyParam) :=
  match (if p.inspection_method = "range" then
      match p.min_value, p.max_value with
      | some a, some b =>
        Except.ok (some ((arangeQ a b).map
          (forceTypeFn strOfFloat p.force_type (fun q => .pint (pyTrunc q)))))
      | _, _ =>
        Except.error
          "If inspection_method is range, min_value and max_value must be specified."
    else Except.ok p.values : Except String (Option (List PyParam))) with
  | .error e => .error e
  | .ok v1 =>
    match (if p.inspection_method = "linspace" then
        match p.min_value, p.max_value, p.n_samples with
        | some a, some b, some n =>
          Except.ok (some ((linspaceQ a b n).map
            (forceTypeFn strOfFloat p.force_type (fun q => .pfloat q))))
        | _, _, _ =>
          Except.error
            "If inspection_method is linspace, min_value, max_value, and n_samples must be specified."
      else if p.inspection_method = "logspace" then
        match p.min_value, p.max_value, p.n_samples with
        | some a, some b, some n =>
          Except.ok (some ((logspaceFn a b n).map
            (forceTypeFn strOfFloat p.force_type (fun q => .pfloat q))))
        | _, _, _ =>
          Except.error
            "If inspection_method is logspace, min_value, max_value, and n_samples must be specified."
      else if p.inspection_method = "custom" then
        match v1 with
        | none =>
          Except.error "If inspection_method is custom, values must be specified."
        | some vs => Except.ok (some vs)
      else Except.ok v1 : Except String (Option (List PyParam))) with
    | .error e => .error e
    | .ok v2 =>
      .ok { parameter_name := p.parameter_name,
            parameter_file_name := p.parameter_file_name.getD p.parameter_name,
            values := v2.getD [],
            combination_idx := p.combination_idx,
            combination_method := p.combination_method }

/-- One axis of the combination list built by
`build_parameter_combinations`: either a `"single"` tuple
`(name, file_name, values, len, "single")` or a `"multi"` tuple
`(names, file_names, zipped values, len, "multi", id_equiv)` (the stored
length is always the length of the value list and is therefore not
duplicated in the model). -/
inductive Axis (α : Type) where
  | single : String → String → List α → Axis α
  | multi : List String → List String → List (List α) → List (List ℕ) → Axis α

def axisLen {α : Type} : Axis α → ℕ
  | .single _ _ vs => vs.length
  | .multi _ _ vv _ => vv.length

/-- Python `list(zip(*values))`: truncates to the shortest input list;
`zip()` of no lists yields nothing. -/
def pyZip {α : Type} [Inhabited α] (ls : List (List α)) : List (List α) :=
  match ls with
  | [] => []
  | l0 :: rest =>
    (List.range (rest.foldr (fun l m => Nat.min l.length m) l0.length)).map
      (fun i => (l0 :: rest).map (fun l => l.getD i default))

/-- `itertools.product(*values)`: Cartesian product with the rightmost
factor varying fastest. -/
def pyProduct {α : Type} : List (List α) → List (List α)
  | [] => [[]]
  | l :: ls => (l.map (fun x => (pyProduct ls).map (fun t => x :: t))).flatten

/-- The index tuples of `np.meshgrid(*arrays)` (default indexing "xy")
after flattening each output array in C order and zipping: for two or more
arrays the first two dimensions are swapped in the iteration order, the
last dimension varies fastest. -/
def meshIdTuples (lens : List ℕ) : List (List ℕ) :=
  match lens with
  | [] => []
  | [n] => (List.range n).map (fun i => [i])
  | n0 :: n1 :: rest =>
    (pyProduct (List.range n1 :: List.range n0 :: rest.map List.range)).map
      (fun t =>
        match t with
        | j1 :: j0 :: js => j0 :: j1 :: js
        | other => other)

def meshValues {α : Type} [Inhabited α] (values : List (List α)) : List (List α) :=
  (meshIdTuples (values.map List.length)).map
    (fun t => List.zipWith (fun l j => l.getD j default) values t)

def insertSorted (x : Int) : List Int → List Int
  | [] => [x]
  | y :: ys => if x ≤ y then x :: y :: ys else y :: insertSorted x ys

def sortInts (l : List Int) : List Int := l.foldr insertSorted []

/-- `np.unique`: the distinct values in ascending order. -/
def npUnique (l : List Int) : List Int := sortInts l.dedup

/-- The body of the per-group loop of `build_parameter_combinations`
(simulation_study.py lines 154-195) for one group id `val`: collect the
members, require a single combination method, and expand according to it;
an unrecognized combination method appends nothing (`.ok none`).  The `[]`
member case cannot arise because group ids are drawn from the members
themselves. -/
def buildGroup {α : Type} [Inhabited α] (specs : List (ParamSpec α)) (g : Int) :
    Except String (Option (Axis α)) :=
  match specs.filter (fun p => p.combination_idx == g) with
  | [] => .ok none
  | m0 :: ms =>
    if ¬ ((m0 :: ms).all (fun m => m.combination_method == m0.combination_method)) then
      .error "All combination methods with the same idx must be the same."
    else if m0.combination_method == some "individual" then
      if ¬ (((m0 :: ms).map (fun p => p.values)).all
          (fun v => v.length == ((((m0 :: ms).map (fun p => p.values)).headD []).length))) then
        .error "All values must have the same length for individual combination."
      else
        .ok (some (.multi ((m0 :: ms).map (fun p => p.parameter_name))
          ((m0 :: ms).map (fun p => p.parameter_file_name))
          (pyZip ((m0 :: ms).map (fun p => p.values)))
          (pyZip (((m0 :: ms).map (fun p => p.values)).map
            (fun v => List.range v.length)))))
    else if m0.combination_method == some "meshgrid" then
      .ok (some (.multi ((m0 :: ms).map (fun p => p.parameter_name))
        ((m0 :: ms).map (fun p => p.parameter_file_name))
        (meshValues ((m0 :: ms).map (fun p => p.values)))
        (meshIdTuples (((m0 :: ms).map (fun p => p.values)).map List.length))))
    else if m0.combination_method == some "product" then
      .ok (some (.multi ((m0 :: ms).map (fun p => p.parameter_name))
        ((m0 :: ms).map (fun p => p.parameter_file_name))
        (pyProduct ((m0 :: ms).map (fun p => p.values)))
        (pyProduct (((m0 :: ms).map (fun p => p.values)).map
          (fun v => List.range v.length)))))
    else .ok none

def buildGroups {α : Type} [Inhabited α] (specs : List (ParamSpec α)) :
    List Int → Except String (List (Axis α))
  | [] => .ok []
  | g :: gs =>
    match buildGroup specs g with
    | .error e => .error e
    | .ok none =>
      match buildGroups specs gs with
      | .error e => .error e
      | .ok rest => .ok rest
    | .ok (some ax) =>
      match buildGroups specs gs with
      | .error e => .error e
      | .ok rest => .ok (ax :: rest)

/-- `SimulationStudy.build_parameter_combinations` (simulation_study.py
lines 121-198): the single axes (group id −1, in declaration order)
followed by the grouped axes (group ids in the ascending order produced by
`np.unique`). -/
def build_parameter_combinations {α : Type} [Inhabited α]
    (specs : List (ParamSpec α)) : Except String (List (Axis α)) :=
  match buildGroups specs
      (npUnique ((specs.map (fun p => p.combination_idx)).filter (fun i => i != -1))) with
  | .error e => .error e
  | .ok joined =>
    .ok (((specs.filter (fun p => p.combination_idx == -1)).map
      (fun p => Axis.single p.parameter_name p.parameter_file_name p.values)) ++ joined)

/-- One tuple of a yielded case:
`(name, file_name, value, kind, disambiguating index)`. -/
structure CaseEntry (α : Type) where
  name : String
  fileName : String
  value : α
  kind : String
  idx : ℕ
deriving DecidableEq, Repr

/-- The entries one axis contributes to the case at position `i`
(simulation_study.py lines 220-235): a single axis contributes
`(c[0], c[1], c[2][i], "single", i)`; a multi axis contributes one entry
per member, iterating over its file-name list. -/
def entriesOf {α : Type} [Inhabited α] (ax : Axis α) (i : ℕ) : List (CaseEntry α) :=
  match ax with
  | .single n f vs => [⟨n, f, vs.getD i default, "single", i⟩]
  | .multi ns fs vv ide =>
    (List.range fs.length).map (fun k =>
      ⟨ns.getD k "", fs.getD k "", (vv.getD i []).getD k default, "multi",
        (ide.getD i []).getD k 0⟩)

def emitCase {α : Type} [Inhabited α] (axes : List (Axis α)) (idx : List ℕ) :
    List (CaseEntry α) :=
  (List.zipWith entriesOf axes idx).flatten

/-- The index-update pass of `yield_parameter_combinations`
(simulation_study.py lines 237-244): scan the positions left to right; a
position that has reached its axis length is reset to zero and the next
position is incremented before the scan reaches it (the Python loop reads
the mutated array). -/
def carryPass : List ℕ → List ℕ → List ℕ
  | [], _ => []
  | i :: is, [] => i :: is
  | i :: is, m :: ms =>
    if i = m then
      match is with
      | [] => [0]
      | j :: js => 0 :: carryPass ((j + 1) :: js) ms
    else i :: carryPass is ms

/-- `current_idx[0] += 1` followed by the carry pass. -/
def odometerStep (idx maxs : List ℕ) : List ℕ :=
  match idx with
  | [] => []
  | i :: is => carryPass ((i + 1) :: is) maxs

def yieldAux {α : Type} [Inhabited α] (axes : List (Axis α)) (lens : List ℕ) :
    ℕ → List ℕ → List (List (CaseEntry α))
  | 0, _ => []
  | n + 1, idx => emitCase axes idx :: yieldAux axes lens n (odometerStep idx lens)

/-- `SimulationStudy.yield_parameter_combinations` (simulation_study.py
lines 200-246): build the axes, then run the odometer from the all-zero
index vector for exactly `∏ axis lengths` steps, emitting one case per
step.  The generator is returned as the list of its yields. -/
def yield_parameter_combinations {α : Type} [Inhabited α]
    (specs : List (ParamSpec α)) : Except String (List (List (CaseEntry α))) :=
  match build_parameter_combinations specs with
  | .error e => .error e
  | .ok axes =>
    .ok (yieldAux axes (axes.map axisLen) (axes.map axisLen).prod
      (List.replicate (axes.map axisLen).length 0))

/-- The mixed-radix digit vector of `t` for the given radix list, least
significant (fastest varying) first. -/
def digitsOf : List ℕ → ℕ → List ℕ
  | [], _ => []
  | l :: ls, t => (t % l) :: digitsOf ls (t / l)

lemma digitsOf_length : ∀ (lens : List ℕ) (t : ℕ), (digitsOf lens t).length = lens.length
  | [], _ => rfl
  | _ :: ls, t => by simp [digitsOf, digitsOf_length ls (t / _)]

lemma digitsOf_zero : ∀ lens : List ℕ, digitsOf lens 0 = List.replicate lens.length 0
  | [] => rfl
  | l :: ls => by simp [digitsOf, digitsOf_zero ls, List.replicate_succ]

lemma prod_pos_parts {l : ℕ} {ls : List ℕ} (h : 0 < (l :: ls).prod) :
    0 < l ∧ 0 < ls.prod := by
  rw [List.prod_cons] at h
  constructor
  · rcases Nat.eq_zero_or_pos l with h0 | h0
    · subst h0; simp at h
    · exact h0
  · rcases Nat.eq_zero_or_pos ls.prod with h0 | h0
    · rw [h0, Nat.mul_zero] at h; exact absurd h (lt_irrefl 0)
    · exact h0

lemma carryPass_digits_id : ∀ (lens : List ℕ) (u : ℕ), u < lens.prod →
    carryPass (digitsOf lens u) lens = digitsOf lens u := by
  intro lens
  induction lens with
  | nil => intro u _; rfl
  | cons l ls ih =>
    intro u hu
    have hpos : 0 < (l :: ls).prod := lt_of_le_of_lt (Nat.zero_le u) hu
    obtain ⟨hl, hls⟩ := prod_pos_parts hpos
    have hmod : u % l < l := Nat.mod_lt u hl
    have hdiv : u / l < ls.prod := by
      rw [Nat.div_lt_iff_lt_mul hl]
      calc u < (l :: ls).prod := hu
        _ = l * ls.prod := List.prod_cons
        _ = ls.prod * l := Nat.mul_comm _ _
    show carryPass ((u % l) :: digitsOf ls (u / l)) (l :: ls) = _
    simp only [carryPass]
    rw [if_neg (Nat.ne_of_lt hmod), ih (u / l) hdiv]
    rfl

lemma odometerStep_digits : ∀ (lens : List ℕ) (t : ℕ), t + 1 < lens.prod →
    odometerStep (digitsOf lens t) lens = digitsOf lens (t + 1) := by
  intro lens
  induction lens with
  | nil => intro t ht; simp [List.prod_nil] at ht
  | cons l ls ih =>
    intro t ht
    have hpos : 0 < (l :: ls).prod := lt_of_le_of_lt (Nat.zero_le _) ht
    obtain ⟨hl, hls⟩ := prod_pos_parts hpos
    have hmod : t % l < l := Nat.mod_lt t hl
    have hprodeq : (l :: ls).prod = l * ls.prod := List.prod_cons
    show carryPass ((t % l + 1) :: digitsOf ls (t / l)) (l :: ls) = digitsOf (l :: ls) (t + 1)
    by_cases hc : t % l + 1 = l
    · have key : t + 1 = l * (t / l + 1) := by
        calc t + 1 = l * (t / l) + t % l + 1 := by rw [Nat.div_add_mod]
          _ = l * (t / l) + (t % l + 1) := by rw [Nat.add_assoc]
          _ = l * (t / l) + l * 1 := by rw [hc, Nat.mul_one]
          _ = l * (t / l + 1) := (Nat.mul_add l (t / l) 1).symm
      have h1 : (t + 1) % l = 0 := by rw [key]; exact Nat.mul_mod_right l _
      have h2 : (t + 1) / l = t / l + 1 := by
        rw [key]; exact Nat.mul_div_cancel_left _ hl
      have hrhs : digitsOf (l :: ls) (t + 1) = 0 :: digitsOf ls (t / l + 1) := by
        show ((t + 1) % l) :: digitsOf ls ((t + 1) / l) = _
        rw [h1, h2]
      rw [hrhs]
      simp only [carryPass]
      rw [if_pos hc]
      cases hd : digitsOf ls (t / l) with
      | nil =>
        have hlsnil : ls = [] := by
          have hlen := digitsOf_length ls (t / l)
          rw [hd] at hlen
          exact (List.length_eq_zero.mp hlen.symm)
        subst hlsnil
        rfl
      | cons j js =>
        have hbound : t / l + 1 < ls.prod := by
          rw [← h2, Nat.div_lt_iff_lt_mul hl]
          calc t + 1 < (l :: ls).prod := ht
            _ = l * ls.prod := hprodeq
            _ = ls.prod * l := Nat.mul_comm _ _
        have hstep := ih (t / l) hbound
        calc 0 :: carryPass ((j + 1) :: js) ls
            = 0 :: odometerStep (digitsOf ls (t / l)) ls := by rw [hd]; rfl
          _ = 0 :: digitsOf ls (t / l + 1) := by rw [hstep]
    · have hlt2 : t % l + 1 < l := Nat.lt_of_le_of_ne (Nat.succ_le_of_lt hmod) hc
      have key2 : t + 1 = l * (t / l) + (t % l + 1) := by
        rw [← Nat.add_assoc, Nat.div_add_mod]
      have h1 : (t + 1) % l = t % l + 1 := by
        rw [key2, Nat.mul_add_mod, Nat.mod_eq_of_lt hlt2]
      have h2 : (t + 1) / l = t / l := by
        rw [key2, Nat.mul_add_div hl, Nat.div_eq_of_lt hlt2, Nat.add_zero]
      have hrhs : digitsOf (l :: ls) (t + 1) = (t % l + 1) :: digitsOf ls (t / l) := by
        show ((t + 1) % l) :: digitsOf ls ((t + 1) / l) = _
        rw [h1, h2]
      rw [hrhs]
      simp only [carryPass]
      rw [if_neg hc]
      congr 1
      apply carryPass_digits_id
      rw [Nat.div_lt_iff_lt_mul hl]
      calc t < t + 1 := Nat.lt_succ_self t
        _ < (l :: ls).prod := ht
        _ = l * ls.prod := hprodeq
        _ = ls.prod * l := Nat.mul_comm _ _

lemma digitsOf_inj : ∀ (lens : List ℕ) (t u : ℕ), t < lens.prod → u < lens.prod →
    digitsOf lens t = digitsOf lens u → t = u := by
  intro lens
  induction lens with
  | nil =>
    intro t u ht hu _
    simp [List.prod_nil] at ht hu
    omega
  | cons l ls ih =>
    intro t u ht hu heq
    have hpos : 0 < (l :: ls).prod := lt_of_le_of_lt (Nat.zero_le _) ht
    obtain ⟨hl, hls⟩ := prod_pos_parts hpos
    simp only [digitsOf, List.cons.injEq] at heq
    obtain ⟨hmod, hdig⟩ := heq
    have hdt : t / l < ls.prod := by
      rw [Nat.div_lt_iff_lt_mul hl]
      calc t < (l :: ls).prod := ht
        _ = l * ls.prod := List.prod_cons
        _ = ls.prod * l := Nat.mul_comm _ _
    have hdu : u / l < ls.prod := by
      rw [Nat.div_lt_iff_lt_mul hl]
      calc u < (l :: ls).prod := hu
        _ = l * ls.prod := List.prod_cons
        _ = ls.prod * l := Nat.mul_comm _ _
    have hdiv := ih (t / l) (u / l) hdt hdu hdig
    calc t = l * (t / l) + t % l := (Nat.div_add_mod t l).symm
      _ = l * (u / l) + u % l := by rw [hdiv, hmod]
      _ = u := Nat.div_add_mod u l

lemma yieldAux_digits {α : Type} [Inhabited α] (axes : List (Axis α)) (lens : List ℕ) :
    ∀ (n t : ℕ), t + n ≤ lens.prod →
      yieldAux axes lens n (digitsOf lens t) =
        (List.range n).map (fun k => emitCase axes (digitsOf lens (t + k))) := by
  intro n
  induction n with
  | zero => intro t _; rfl
  | succ m ihm =>
    intro t ht
    show emitCase axes (digitsOf lens t) ::
        yieldAux axes lens m (odometerStep (digitsOf lens t) lens) = _
    rw [List.range_succ_eq_map, List.map_cons, List.map_map]
    cases m with
    | zero =>
      simp [yieldAux]
    | succ m2 =>
      have hstep : odometerStep (digitsOf lens t) lens = digitsOf lens (t + 1) :=
        odometerStep_digits lens t (by omega)
      rw [hstep, ihm (t + 1) (by omega)]
      refine congrArg₂ List.cons (by rw [Nat.add_zero]) ?_
      apply List.map_congr_left
      intro k _
      simp only [Function.comp]
      rw [show t + 1 + k = t + (k + 1) from by omega]

lemma yield_eq_range_map {α : Type} [Inhabited α] (axes : List (Axis α))
    (lens : List ℕ) :
    yieldAux axes lens lens.prod (List.replicate lens.length 0) =
      (List.range lens.prod).map (fun k => emitCase axes (digitsOf lens k)) := by
  rw [show List.replicate lens.length 0 = digitsOf lens 0 from (digitsOf_zero lens).symm,
    yieldAux_digits axes lens lens.prod 0 (by omega)]
  simp

lemma npUnique_nil : npUnique [] = [] := rfl

lemma build_singles {α : Type} [Inhabited α] (specs : List (ParamSpec α))
    (hall : ∀ s ∈ specs, s.combination_idx = -1) :
    build_parameter_combinations specs =
      .ok (specs.map
        (fun p => Axis.single p.parameter_name p.parameter_file_name p.values)) := by
  have h1 : specs.filter (fun p => p.combination_idx == -1) = specs :=
    List.filter_eq_self.mpr (fun p hp => by simp [hall p hp])
  have h2 : (specs.map (fun p => p.combination_idx)).filter (fun i => i != -1) = [] := by
    apply List.filter_eq_nil_iff.mpr
    intro i hi
    simp only [List.mem_map] at hi
    obtain ⟨p, hp, rfl⟩ := hi
    simp [hall p hp]
  unfold build_parameter_combinations
  rw [h2, npUnique_nil, h1]
  show Except.ok (specs.map _ ++ []) = _
  rw [List.append_nil]

lemma emitCase_singles {α : Type} [Inhabited α] :
    ∀ (specs : List (ParamSpec α)) (ds : List ℕ),
      emitCase (specs.map
        (fun p => Axis.single p.parameter_name p.parameter_file_name p.values)) ds =
      List.zipWith (fun (s : ParamSpec α) (i : ℕ) =>
        (⟨s.parameter_name, s.parameter_file_name, s.values.getD i default,
          "single", i⟩ : CaseEntry α)) specs ds := by
  intro specs
  induction specs with
  | nil => intro ds; cases ds <;> rfl
  | cons p ps ih =>
    intro ds
    cases ds with
    | nil => rfl
    | cons d ds' =>
      show (entriesOf (Axis.single p.parameter_name p.parameter_file_name p.values) d ::
          List.zipWith entriesOf (ps.map _) ds').flatten = _
      rw [List.flatten_cons]
      show entriesOf _ d ++ emitCase (ps.map _) ds' = _
      rw [ih ds']
      rfl

lemma zipWith_caseEntry_inj {α : Type} [Inhabited α] :
    ∀ (specs : List (ParamSpec α)) (ds es : List ℕ),
      ds.length = specs.length → es.length = specs.length →
      List.zipWith (fun (s : ParamSpec α) (i : ℕ) =>
        (⟨s.parameter_name, s.parameter_file_name, s.values.getD i default,
          "single", i⟩ : CaseEntry α)) specs ds =
      List.zipWith (fun (s : ParamSpec α) (i : ℕ) =>
        (⟨s.parameter_name, s.parameter_file_name, s.values.getD i default,
          "single", i⟩ : CaseEntry α)) specs es → ds = es := by
  intro specs
  induction specs with
  | nil =>
    intro ds es hd he _
    rw [List.length_eq_zero.mp hd, List.length_eq_zero.mp he]
  | cons p ps ih =>
    intro ds es hd he heq
    cases ds with
    | nil => simp at hd
    | cons d ds' =>
      cases es with
      | nil => simp at he
      | cons e es' =>
        simp only [List.zipWith_cons_cons, List.cons.injEq, CaseEntry.mk.injEq] at heq
        obtain ⟨⟨_, _, _, _, hde⟩, htail⟩ := heq
        simp only [List.length_cons, Nat.succ.injEq] at hd he
        rw [hde, ih ds' es' hd he htail]

/-- C2: for a non-empty spec list consisting only of single axes
(`combination_idx = -1`), `yield_parameter_combinations` succeeds and yields
exactly `∏ (value-list lengths)` cases; the case at position `t` assigns to
the j-th declared parameter its value at mixed-radix digit j of `t` (with
the first-declared parameter varying fastest), and the yielded cases are
pairwise distinct.  The enumeration is a pure function of the spec list, so
it is identical on every invocation. -/
theorem yield_parameter_combinations_singles {α : Type} [Inhabited α]
    (specs : List (ParamSpec α)) (hne : specs ≠ [])
    (hall : ∀ s ∈ specs, s.combination_idx = -1) :
    ∃ L, yield_parameter_combinations specs = .ok L ∧
      L.length = (specs.map (fun s => s.values.length)).prod ∧
      (∀ t, t < (specs.map (fun s => s.values.length)).prod →
        L.getD t [] = List.zipWith
          (fun (s : ParamSpec α) (i : ℕ) =>
            (⟨s.parameter_name, s.parameter_file_name, s.values.getD i default,
              "single", i⟩ : CaseEntry α)) specs
          (digitsOf (specs.map (fun s => s.values.length)) t)) ∧
      L.Nodup := by
  have hbuild := build_singles specs hall
  have hlens : (specs.map
      (fun p => Axis.single p.parameter_name p.parameter_file_name p.values)).map axisLen =
      specs.map (fun s => s.values.length) := by
    rw [List.map_map]
    rfl
  set lens := specs.map (fun s => s.values.length) with hlensdef
  set axes := specs.map
    (fun p => Axis.single p.parameter_name p.parameter_file_name p.values) with haxes
  have hyield : yield_parameter_combinations specs =
      .ok (yieldAux axes (axes.map axisLen) (axes.map axisLen).prod
        (List.replicate (axes.map axisLen).length 0)) := by
    unfold yield_parameter_combinations
    rw [hbuild]
  rw [hyield, hlens]
  have hlenlen : lens.length = specs.length := by
    rw [hlensdef, List.length_map]
  have hL : yieldAux axes lens lens.prod (List.replicate lens.length 0) =
      (List.range lens.prod).map (fun k => emitCase axes (digitsOf lens k)) :=
    yield_eq_range_map axes lens
  refine ⟨_, rfl, ?_, ?_, ?_⟩
  · rw [hL, List.length_map, List.length_range]
  · intro t ht
    rw [hL, List.getD, List.get?_map, List.get?_range ht]
    show emitCase axes (digitsOf lens t) = _
    rw [haxes, emitCase_singles]
  · rw [hL]
    apply (List.nodup_range lens.prod).map_on
    intro t ht u hu heq
    rw [List.mem_range] at ht hu
    rw [haxes, emitCase_singles, emitCase_singles] at heq
    have hdt : (digitsOf lens t).length = specs.length := by
      rw [digitsOf_length, hlenlen]
    have hdu : (digitsOf lens u).length = specs.length := by
      rw [digitsOf_length, hlenlen]
    exact digitsOf_inj lens t u ht hu (zipWith_caseEntry_inj specs _ _ hdt hdu heq)

theorem yield_parameter_combinations_singles_witness :
    ∃ L, yield_parameter_combinations
        [ParamSpec.mk "a" "a" [10, 20] (-1) none,
         ParamSpec.mk "b" "b" [5, 6, 7] (-1) none] = .ok L ∧
      L.length = (([ParamSpec.mk "a" "a" ([10, 20] : List ℤ) (-1) none,
         ParamSpec.mk "b" "b" [5, 6, 7] (-1) none]).map
           (fun s => s.values.length)).prod ∧
      (∀ t, t < (([ParamSpec.mk "a" "a" ([10, 20] : List ℤ) (-1) none,
         ParamSpec.mk "b" "b" [5, 6, 7] (-1) none]).map
           (fun s => s.values.length)).prod →
        L.getD t [] = List.zipWith
          (fun (s : ParamSpec ℤ) (i : ℕ) =>
            (⟨s.parameter_name, s.parameter_file_name, s.values.getD i default,
              "single", i⟩ : CaseEntry ℤ))
          [ParamSpec.mk "a" "a" [10, 20] (-1) none,
           ParamSpec.mk "b" "b" [5, 6, 7] (-1) none]
          (digitsOf (([ParamSpec.mk "a" "a" ([10, 20] : List ℤ) (-1) none,
            ParamSpec.mk "b" "b" [5, 6, 7] (-1) none]).map
              (fun s => s.values.length)) t)) ∧
      L.Nodup :=
  yield_parameter_combinations_singles
    [ParamSpec.mk "a" "a" [10, 20] (-1) none,
     ParamSpec.mk "b" "b" [5, 6, 7] (-1) none] (by simp) (by decide)

lemma dedup_const (g : Int) : ∀ (l : List Int), l ≠ [] → (∀ x ∈ l, x = g) →
    l.dedup = [g] := by
  intro l
  induction l with
  | nil => intro h _; exact absurd rfl h
  | cons a rest ih =>
    intro _ hall
    have ha : a = g := hall a (List.mem_cons_self a rest)
    cases rest with
    | nil => subst ha; simp
    | cons b rest2 =>
      have hball : ∀ x ∈ b :: rest2, x = g :=
        fun x hx => hall x (List.mem_cons_of_mem a hx)
      have hmem : a ∈ b :: rest2 := by
        rw [ha, ← hball b (List.mem_cons_self b rest2)]
        exact List.mem_cons_self b rest2
      rw [List.dedup_cons_of_mem hmem]
      exact ih (by simp) hball

lemma npUnique_const (g : Int) (l : List Int) (hne : l ≠ [])
    (hall : ∀ x ∈ l, x = g) : npUnique l = [g] := by
  unfold npUnique
  rw [dedup_const g l hne hall]
  rfl

lemma filter_idx_self {α : Type} [Inhabited α] (specs : List (ParamSpec α)) (g : Int)
    (hidx : ∀ s ∈ specs, s.combination_idx = g) :
    specs.filter (fun p => p.combination_idx == g) = specs :=
  List.filter_eq_self.mpr (fun p hp => by simp [hidx p hp])

lemma build_single_group_parts {α : Type} [Inhabited α] (specs : List (ParamSpec α))
    (g : Int) (hg : g ≠ -1) (hne : specs ≠ [])
    (hidx : ∀ s ∈ specs, s.combination_idx = g) :
    specs.filter (fun p => p.combination_idx == -1) = [] ∧
    npUnique ((specs.map (fun p => p.combination_idx)).filter (fun i => i != -1)) = [g] := by
  constructor
  · apply List.filter_eq_nil_iff.mpr
    intro p hp
    simp [hidx p hp, hg]
  · have h2 : (specs.map (fun p => p.combination_idx)).filter (fun i => i != -1) =
        specs.map (fun p => p.combination_idx) := by
      apply List.filter_eq_self.mpr
      intro i hi
      simp only [List.mem_map] at hi
      obtain ⟨p, hp, rfl⟩ := hi
      simp [hidx p hp, hg]
    rw [h2]
    apply npUnique_const
    · simp [hne]
    · intro x hx
      simp only [List.mem_map] at hx
      obtain ⟨p, hp, rfl⟩ := hx
      exact hidx p hp

lemma build_single_group_ok {α : Type} [Inhabited α] (specs : List (ParamSpec α))
    (g : Int) (hg : g ≠ -1) (hne : specs ≠ [])
    (hidx : ∀ s ∈ specs, s.combination_idx = g) (ax : Axis α)
    (hbg : buildGroup specs g = .ok (some ax)) :
    build_parameter_combinations specs = .ok [ax] := by
  obtain ⟨h1, h3⟩ := build_single_group_parts specs g hg hne hidx
  unfold build_parameter_combinations
  rw [h3]
  have hbgs : buildGroups specs [g] = .ok [ax] := by
    simp [buildGroups, hbg]
  rw [hbgs]
  simp [h1]

lemma build_single_group_err {α : Type} [Inhabited α] (specs : List (ParamSpec α))
    (g : Int) (hg : g ≠ -1) (hne : specs ≠ [])
    (hidx : ∀ s ∈ specs, s.combination_idx = g) (e : String)
    (hbg : buildGroup specs g = .error e) :
    build_parameter_combinations specs = .error e := by
  obtain ⟨h1, h3⟩ := build_single_group_parts specs g hg hne hidx
  unfold build_parameter_combinations
  rw [h3]
  have hbgs : buildGroups specs [g] = .error e := by
    simp [buildGroups, hbg]
  rw [hbgs]

lemma buildGroup_mismatch {α : Type} [Inhabited α] (s0 : ParamSpec α)
    (rest : List (ParamSpec α)) (g : Int)
    (hidx : ∀ s ∈ s0 :: rest, s.combination_idx = g)
    (hmm : ∃ s ∈ s0 :: rest, s.combination_method ≠ s0.combination_method) :
    buildGroup (s0 :: rest) g =
      .error "All combination methods with the same idx must be the same." := by
  have hfil := filter_idx_self (s0 :: rest) g hidx
  have hall : ((s0 :: rest).all
      (fun m => m.combination_method == s0.combination_method)) = false := by
    apply List.all_eq_false.mpr
    obtain ⟨s, hs, hne2⟩ := hmm
    exact ⟨s, hs, by simp [hne2]⟩
  unfold buildGroup
  rw [hfil]
  simp [hall]

lemma buildGroup_individual_unequal {α : Type} [Inhabited α] (s0 : ParamSpec α)
    (rest : List (ParamSpec α)) (g : Int)
    (hidx : ∀ s ∈ s0 :: rest, s.combination_idx = g)
    (hmeth : ∀ s ∈ s0 :: rest, s.combination_method = some "individual")
    (hlen : ∃ s ∈ s0 :: rest, s.values.length ≠ s0.values.length) :
    buildGroup (s0 :: rest) g =
      .error "All values must have the same length for individual combination." := by
  have hfil := filter_idx_self (s0 :: rest) g hidx
  have hallm : ((s0 :: rest).all
      (fun m => m.combination_method == s0.combination_method)) = true := by
    apply List.all_eq_true.mpr
    intro m hm
    simp [hmeth m hm, hmeth s0 (List.mem_cons_self s0 rest)]
  have hm0 : s0.combination_method = some "individual" :=
    hmeth s0 (List.mem_cons_self s0 rest)
  have hvals : (((s0 :: rest).map (fun p => p.values)).all
      (fun v => v.length == (((s0 :: rest).map (fun p => p.values)).headD []).length))
      = false := by
    apply List.all_eq_false.mpr
    obtain ⟨s, hs, hne2⟩ := hlen
    refine ⟨s.values, List.mem_map.mpr ⟨s, hs, rfl⟩, ?_⟩
    simp only [List.map_cons, List.headD_cons]
    simp [hne2]
  simp only [buildGroup, hfil]
  rw [if_neg (fun hc => hc hallm), hm0,
    if_pos (show ((some "individual" : Option String) == some "individual") = true
      from rfl),
    if_pos (show ¬((((s0 :: rest).map (fun p => p.values)).all
      (fun v => v.length == (((s0 :: rest).map (fun p => p.values)).headD []).length))
        = true) from fun hcontra => by
      rw [hvals] at hcontra
      exact Bool.false_ne_true hcontra)]

lemma buildGroup_individual_ok {α : Type} [Inhabited α] (s0 : ParamSpec α)
    (rest : List (ParamSpec α)) (g : Int) (n : ℕ)
    (hidx : ∀ s ∈ s0 :: rest, s.combination_idx = g)
    (hmeth : ∀ s ∈ s0 :: rest, s.combination_method = some "individual")
    (hlen : ∀ s ∈ s0 :: rest, s.values.length = n) :
    buildGroup (s0 :: rest) g =
      .ok (some (.multi ((s0 :: rest).map (fun p => p.parameter_name))
        ((s0 :: rest).map (fun p => p.parameter_file_name))
        (pyZip ((s0 :: rest).map (fun p => p.values)))
        (pyZip (((s0 :: rest).map (fun p => p.values)).map
          (fun v => List.range v.length))))) := by
  have hfil := filter_idx_self (s0 :: rest) g hidx
  have hallm : ((s0 :: rest).all
      (fun m => m.combination_method == s0.combination_method)) = true := by
    apply List.all_eq_true.mpr
    intro m hm
    simp [hmeth m hm, hmeth s0 (List.mem_cons_self s0 rest)]
  have hm0 : s0.combination_method = some "individual" :=
    hmeth s0 (List.mem_cons_self s0 rest)
  have hvals : (((s0 :: rest).map (fun p => p.values)).all
      (fun v => v.length == (((s0 :: rest).map (fun p => p.values)).headD []).length))
      = true := by
    apply List.all_eq_true.mpr
    intro v hv
    simp only [List.mem_map] at hv
    obtain ⟨p, hp, rfl⟩ := hv
    simp only [List.map_cons, List.headD_cons]
    simp [hlen p hp, hlen s0 (List.mem_cons_self s0 rest)]
  simp only [buildGroup, hfil]
  rw [if_neg (fun hc => hc hallm), hm0,
    if_pos (show ((some "individual" : Option String) == some "individual") = true
      from rfl),
    if_neg (fun hc => hc hvals)]

lemma foldr_min_const {α : Type} : ∀ (ls : List (List α)) (n : ℕ),
    (∀ l ∈ ls, l.length = n) →
    ls.foldr (fun l m => Nat.min l.length m) n = n := by
  intro ls
  induction ls with
  | nil => intro n _; rfl
  | cons l rest ih =>
    intro n hall
    simp only [List.foldr_cons]
    rw [ih n (fun x hx => hall x (List.mem_cons_of_mem l hx)),
      hall l (List.mem_cons_self l rest)]
    exact Nat.min_self n

lemma pyZip_equal_lengths {α : Type} [Inhabited α] (v0 : List α) (vs : List (List α))
    (n : ℕ) (h : ∀ l ∈ v0 :: vs, l.length = n) :
    pyZip (v0 :: vs) =
      (List.range n).map (fun i => (v0 :: vs).map (fun l => l.getD i default)) := by
  show (List.range (vs.foldr (fun l m => Nat.min l.length m) v0.length)).map
      (fun i => (v0 :: vs).map (fun l => l.getD i default)) = _
  rw [show v0.length = n from h v0 (List.mem_cons_self v0 vs),
    foldr_min_const vs n (fun l hl => h l (List.mem_cons_of_mem v0 hl))]

/-- C3: a spec list forming one combination group (`combination_idx = g ≠ -1`
for every member) with `combination_method = "individual"`: if all member
value lists have the same length `n`, `build_parameter_combinations`
produces exactly one compound axis of length `n` whose position `i` holds
the i-th value of each member; if the member value lists have unequal
lengths, it raises the `ValueError` of simulation_study.py line 169. -/
theorem build_combinations_individual {α : Type} [Inhabited α]
    (specs : List (ParamSpec α)) (g : Int) (hg : g ≠ -1) (hne : specs ≠ [])
    (hidx : ∀ s ∈ specs, s.combination_idx = g)
    (hmeth : ∀ s ∈ specs, s.combination_method = some "individual") (n : ℕ) :
    ((∀ s ∈ specs, s.values.length = n) →
      ∃ vv ide, build_parameter_combinations specs =
          .ok [Axis.multi (specs.map (fun s => s.parameter_name))
            (specs.map (fun s => s.parameter_file_name)) vv ide] ∧
        vv.length = n ∧
        (∀ i, i < n → vv.getD i [] =
          specs.map (fun s => s.values.getD i default))) ∧
    ((∃ s ∈ specs, s.values.length ≠ (specs.head hne).values.length) →
      build_parameter_combinations specs =
        .error "All values must have the same length for individual combination.") := by
  obtain ⟨s0, rest, rfl⟩ := List.exists_cons_of_ne_nil hne
  constructor
  · intro hlen
    have hbg := buildGroup_individual_ok s0 rest g n hidx hmeth hlen
    have hbuild := build_single_group_ok (s0 :: rest) g hg (by simp) hidx _ hbg
    have hmapvals : (s0 :: rest).map (fun p => p.values) =
        s0.values :: rest.map (fun p => p.values) := rfl
    have hlens : ∀ l ∈ s0.values :: rest.map (fun p => p.values), l.length = n := by
      intro l hl
      rcases List.mem_cons.mp hl with rfl | hl2
      · exact hlen s0 (List.mem_cons_self s0 rest)
      · simp only [List.mem_map] at hl2
        obtain ⟨p, hp, rfl⟩ := hl2
        exact hlen p (List.mem_cons_of_mem s0 hp)
    have hzip : pyZip ((s0 :: rest).map (fun p => p.values)) =
        (List.range n).map (fun i =>
          (s0.values :: rest.map (fun p => p.values)).map (fun l => l.getD i default)) := by
      rw [hmapvals]
      exact pyZip_equal_lengths s0.values (rest.map (fun p => p.values)) n hlens
    refine ⟨pyZip ((s0 :: rest).map (fun p => p.values)),
      pyZip (((s0 :: rest).map (fun p => p.values)).map (fun v => List.range v.length)),
      hbuild, ?_, ?_⟩
    · rw [hzip, List.length_map, List.length_range]
    · intro i hi
      rw [hzip, List.getD, List.get?_map, List.get?_range hi]
      show (s0.values :: rest.map (fun p => p.values)).map (fun l => l.getD i default) = _
      rw [← hmapvals, List.map_map]
      rfl
  · intro hmm2
    have hbg := buildGroup_individual_unequal s0 rest g hidx hmeth hmm2
    exact build_single_group_err (s0 :: rest) g hg (by simp) hidx _ hbg

theorem build_combinations_individual_witness :
    ((∀ s ∈ [ParamSpec.mk "p" "p" ([1, 2, 3] : List ℤ) 0 (some "individual"),
        ParamSpec.mk "q" "q" [10, 20, 30] 0 (some "individual")],
      s.values.length = 3) →
      ∃ vv ide, build_parameter_combinations
          [ParamSpec.mk "p" "p" ([1, 2, 3] : List ℤ) 0 (some "individual"),
           ParamSpec.mk "q" "q" [10, 20, 30] 0 (some "individual")] =
          .ok [Axis.multi (([ParamSpec.mk "p" "p" ([1, 2, 3] : List ℤ) 0 (some "individual"),
              ParamSpec.mk "q" "q" [10, 20, 30] 0 (some "individual")]).map
                (fun s => s.parameter_name))
            (([ParamSpec.mk "p" "p" ([1, 2, 3] : List ℤ) 0 (some "individual"),
              ParamSpec.mk "q" "q" [10, 20, 30] 0 (some "individual")]).map
                (fun s => s.parameter_file_name)) vv ide] ∧
        vv.length = 3 ∧
        (∀ i, i < 3 → vv.getD i [] =
          ([ParamSpec.mk "p" "p" ([1, 2, 3] : List ℤ) 0 (some "individual"),
            ParamSpec.mk "q" "q" [10, 20, 30] 0 (some "individual")]).map
              (fun s => s.values.getD i default))) ∧
    ((∃ s ∈ [ParamSpec.mk "p" "p" ([1, 2, 3] : List ℤ) 0 (some "individual"),
        ParamSpec.mk "q" "q" [10, 20, 30] 0 (some "individual")],
      s.values.length ≠
        (([ParamSpec.mk "p" "p" ([1, 2, 3] : List ℤ) 0 (some "individual"),
          ParamSpec.mk "q" "q" [10, 20, 30] 0 (some "individual")]).head
            (by simp)).values.length) →
      build_parameter_combinations
          [ParamSpec.mk "p" "p" ([1, 2, 3] : List ℤ) 0 (some "individual"),
           ParamSpec.mk "q" "q" [10, 20, 30] 0 (some "individual")] =
        .error "All values must have the same length for individual combination.") :=
  build_combinations_individual
    [ParamSpec.mk "p" "p" ([1, 2, 3] : List ℤ) 0 (some "individual"),
     ParamSpec.mk "q" "q" [10, 20, 30] 0 (some "individual")]
    0 (by decide) (by simp) (by decide) (by decide) 3

/-- Stub for `np.logspace` (its values are irrelevant to every claim). -/
def logspaceStub : ℚ → ℚ → ℕ → List ℚ := fun _ _ _ => []

/-- Stub for Python `str` of a float (irrelevant to every claim). -/
def strOfFloatStub : ℚ → String := fun _ => ""

def c5spec1 : ParamInit :=
  { parameter_name := "p", inspection_method := "custom", min_value := none,
    max_value := none, n_samples := none,
    values := some [.pint 1, .pint 2, .pint 3], combination_idx := 0,
    combination_method := some "individual", parameter_file_name := none,
    force_type := none }

def c5spec2 : ParamInit :=
  { parameter_name := "q", inspection_method := "custom", min_value := none,
    max_value := none, n_samples := none,
    values := some [.pint 10, .pint 20], combination_idx := 0,
    combination_method := some "individual", parameter_file_name := none,
    force_type := none }

def c5param1 : ParamSpec PyParam :=
  ⟨"p", "p", [.pint 1, .pint 2, .pint 3], 0, some "individual"⟩

def c5param2 : ParamSpec PyParam :=
  ⟨"q", "q", [.pint 10, .pint 20], 0, some "individual"⟩

def c5paramMeshgrid : ParamSpec PyParam :=
  ⟨"q", "q", [.pint 10, .pint 20], 0, some "meshgrid"⟩

/-- C5 counterexample: a combination group whose members have unequal value
list lengths (under zip/"individual") passes `ParameterInspection`
construction without any error — both `__post_init__` calls succeed — and
the configuration error is raised only later, when
`build_parameter_combinations` is called on the spec list.  So group-level
configuration errors are not surfaced at spec-construction time. -/
theorem spec_construction_error_counterexample :
    post_init logspaceStub strOfFloatStub c5spec1 = .ok c5param1 ∧
    post_init logspaceStub strOfFloatStub c5spec2 = .ok c5param2 ∧
    build_parameter_combinations [c5param1, c5param2] =
      .error "All values must have the same length for individual combination." :=
  ⟨rfl, rfl, rfl⟩

/-- C5 amended: per-spec configuration errors (missing bounds for the
generation method) are raised at `ParameterInspection` construction time,
but group-level configuration errors — mismatched combination methods within
a group, and unequal value-list lengths under the "individual" (zip) method —
are raised only when `build_parameter_combinations` runs over the spec
list (a single spec's `__post_init__` cannot see the other group members). -/
theorem construction_and_build_error_timing :
    (∀ (lsf : ℚ → ℚ → ℕ → List ℚ) (sof : ℚ → String) (p : ParamInit),
      (p.inspection_method = "range" →
        p.min_value = none ∨ p.max_value = none →
        ∃ m, post_init lsf sof p = .error m) ∧
      (p.inspection_method = "linspace" →
        p.min_value = none ∨ p.max_value = none ∨ p.n_samples = none →
        ∃ m, post_init lsf sof p = .error m) ∧
      (p.inspection_method = "logspace" →
        p.min_value = none ∨ p.max_value = none ∨ p.n_samples = none →
        ∃ m, post_init lsf sof p = .error m) ∧
      (p.inspection_method = "custom" → p.values = none →
        ∃ m, post_init lsf sof p = .error m)) ∧
    (∀ (g : Int) (s0 : ParamSpec PyParam) (rest : List (ParamSpec PyParam)),
      g ≠ -1 → (∀ s ∈ s0 :: rest, s.combination_idx = g) →
      ((∃ s ∈ s0 :: rest, s.combination_method ≠ s0.combination_method) →
        build_parameter_combinations (s0 :: rest) =
          .error "All combination methods with the same idx must be the same.") ∧
      ((∀ s ∈ s0 :: rest, s.combination_method = some "individual") →
        (∃ s ∈ s0 :: rest, s.values.length ≠ s0.values.length) →
        build_parameter_combinations (s0 :: rest) =
          .error "All values must have the same length for individual combination.")) := by
  constructor
  · intro lsf sof p
    refine ⟨?_, ?_, ?_, ?_⟩
    · intro hm hnone
      rcases hnone with h | h
      · cases hmax : p.max_value <;> simp [post_init, hm, h, hmax]
      · cases hmin : p.min_value <;> simp [post_init, hm, h, hmin]
    · intro hm hnone
      rcases hnone with h | h | h
      · cases hmax : p.max_value <;> cases hn : p.n_samples <;>
          simp [post_init, hm, h, hmax, hn]
      · cases hmin : p.min_value <;> cases hn : p.n_samples <;>
          simp [post_init, hm, h, hmin, hn]
      · cases hmin : p.min_value <;> cases hmax : p.max_value <;>
          simp [post_init, hm, h, hmin, hmax]
    · intro hm hnone
      rcases hnone with h | h | h
      · cases hmax : p.max_value <;> cases hn : p.n_samples <;>
          simp [post_init, hm, h, hmax, hn]
      · cases hmin : p.min_value <;> cases hn : p.n_samples <;>
          simp [post_init, hm, h, hmin, hn]
      · cases hmin : p.min_value <;> cases hmax : p.max_value <;>
          simp [post_init, hm, h, hmin, hmax]
    · intro hm hv
      simp [post_init, hm, hv]
  · intro g s0 rest hg hidx
    constructor
    · intro hmm
      exact build_single_group_err (s0 :: rest) g hg (by simp) hidx _
        (buildGroup_mismatch s0 rest g hidx hmm)
    · intro hmeth hlen
      exact build_single_group_err (s0 :: rest) g hg (by simp) hidx _
        (buildGroup_individual_unequal s0 rest g hidx hmeth hlen)

theorem construction_and_build_error_timing_witness :
    (∃ m, post_init logspaceStub strOfFloatStub
      { parameter_name := "r", inspection_method := "range", min_value := none,
        max_value := some 5, n_samples := none, values := none,
        combination_idx := -1, combination_method := none,
        parameter_file_name := none, force_type := none } = .error m) ∧
    (∃ m, post_init logspaceStub strOfFloatStub
      { parameter_name := "r", inspection_method := "linspace",
        min_value := some 0, max_value := some 5, n_samples := none,
        values := none, combination_idx := -1, combination_method := none,
        parameter_file_name := none, force_type := none } = .error m) ∧
    (∃ m, post_init logspaceStub strOfFloatStub
      { parameter_name := "r", inspection_method := "logspace",
        min_value := none, max_value := none, n_samples := some 4,
        values := none, combination_idx := -1, combination_method := none,
        parameter_file_name := none, force_type := none } = .error m) ∧
    (∃ m, post_init logspaceStub strOfFloatStub
      { parameter_name := "r", inspection_method := "custom", min_value := none,
        max_value := none, n_samples := none, values := none,
        combination_idx := -1, combination_method := none,
        parameter_file_name := none, force_type := none } = .error m) ∧
    build_parameter_combinations [c5param1, c5paramMeshgrid] =
      .error "All combination methods with the same idx must be the same." ∧
    build_parameter_combinations [c5param1, c5param2] =
      .error "All values must have the same length for individual combination." := by
  refine ⟨?_, ?_, ?_, ?_, ?_, ?_⟩
  · exact ((construction_and_build_error_timing.1 logspaceStub strOfFloatStub _).1
      rfl (Or.inl rfl))
  · exact ((construction_and_build_error_timing.1 logspaceStub strOfFloatStub _).2.1
      rfl (Or.inr (Or.inr rfl)))
  · exact ((construction_and_build_error_timing.1 logspaceStub strOfFloatStub _).2.2.1
      rfl (Or.inl rfl))
  · exact ((construction_and_build_error_timing.1 logspaceStub strOfFloatStub _).2.2.2
      rfl rfl)
  · exact (construction_and_build_error_timing.2 0 c5param1 [c5paramMeshgrid]
      (by decide) (by decide)).1 ⟨c5paramMeshgrid, by simp, by decide⟩
  · exact (construction_and_build_error_timing.2 0 c5param1 [c5param2]
      (by decide) (by decide)).2 (by decide) ⟨c5param2, by simp, by decide⟩
